import Mathlib

/-!
Shallow embedding of the Format Selection & Normalization Engine of
`src/api/extract.py` (functions `normalize_codec_name`,
`normalize_audio_codec_name`, `process_video_formats`,
`process_audio_formats`, `is_hls_format`, `is_progressive_format`,
`process_youtube_formats`).

Modelling conventions:
* A Python dict field is a `PyField α`: `absent` (key missing), `null`
  (key present with value `None`), or `val a`.  `fmt.get(k, d)` becomes
  `PyField.get f d : Option α` where `none` is the Python value `None`.
* Python `TypeError`s raised by arithmetic/comparison on `None` are
  modelled with `Except String`; every place where the Python code can
  raise is an `.error "TypeError"` in the embedding.
* The float tolerance arithmetic (`target_h * 0.1`, `height_tolerance`)
  is modelled over `ℚ`.  For every concrete target used in the claims
  (1080, 720, 480, 360) the Python double `t * 0.1` is exactly `t/10`,
  so the rational model agrees with the float code on all comparisons
  appearing in the claims.
* `info` is fixed to its default `{}` (falsy), so filename generation
  takes the literal f-string branch, as in the source's default call.
* Python's stable `list.sort(key=...)` is modelled by a stable
  insertion sort `sortBy`; `sort` first evaluates the key on every
  element, which is where a `None` height raises, hence the `pairM`
  step below.
-/

/-- Three-state model of a Python dict entry: missing key, key bound to
`None`, or key bound to a value. -/
inductive PyField (α : Type) where
  | absent : PyField α
  | null : PyField α
  | val : α → PyField α
deriving DecidableEq

/-- `fmt.get(k, d)`: missing key gives the default, a `None` value is
returned as-is (modelled `none`). -/
def PyField.get {α : Type} (f : PyField α) (d : α) : Option α :=
  match f with
  | .absent => some d
  | .null => none
  | .val v => some v

/-- `fmt.get(k)`: both a missing key and a `None` value give Python
`None`. -/
def PyField.get? {α : Type} (f : PyField α) : Option α :=
  match f with
  | .absent => none
  | .null => none
  | .val v => some v

/-- Python truthiness of a string-or-None value. -/
def truthyS (o : Option String) : Bool :=
  match o with
  | none => false
  | some s => s ≠ ""

/-- Python truthiness of an int-or-None value. -/
def truthyI (o : Option Int) : Bool :=
  match o with
  | none => false
  | some n => n ≠ 0

/-- Python `a or b` on int-or-None values. -/
def pyOrI (a b : Option Int) : Option Int :=
  if truthyI a then a else b

/-- Rendering of a possibly-`None` string inside an f-string. -/
def pyOptStr (o : Option String) : String :=
  match o with
  | none => "None"
  | some s => s

/-- `pat.isPrefixOf`-based substring search on char lists. -/
def strContainsAux (pat : List Char) : List Char → Bool
  | [] => pat.isEmpty
  | c :: rest => pat.isPrefixOf (c :: rest) || strContainsAux pat rest

/-- Python `pat in s` for strings (contiguous substring test). -/
def strContains (s pat : String) : Bool :=
  strContainsAux pat.data s.data

/-- Python `str.lower()` (ASCII; all codec tokens in the code are ASCII). -/
def pyLower (s : String) : String :=
  String.mk (s.data.map Char.toLower)

/-- Python `str.upper()` (ASCII). -/
def pyUpper (s : String) : String :=
  String.mk (s.data.map Char.toUpper)

/-- Structural worker for `pySplitDot`. -/
def splitDotAux : List Char → List Char → List String
  | [], acc => [String.mk acc.reverse]
  | c :: rest, acc =>
    if c = '.' then String.mk acc.reverse :: splitDotAux rest []
    else splitDotAux rest (c :: acc)

/-- Python `s.split('.')` (`"".split('.') == ['']`). -/
def pySplitDot (s : String) : List String :=
  splitDotAux s.data []

/-- Python `d.get(k, default)` for the codec-priority dict, modelled as
an association list. -/
def lookupD (d : List (String × Int)) (k : String) (default : Int) : Int :=
  match d.find? (fun p => p.1 == k) with
  | some p => p.2
  | none => default

/-- `DEFAULT_CODEC_PRIORITY = {'H.264': 0, 'VP9': 1, 'AV1': 2}`
(src/api/extract.py line 87). -/
def DEFAULT_CODEC_PRIORITY : List (String × Int) :=
  [("H.264", 0), ("VP9", 1), ("AV1", 2)]

/-- `DEFAULT_TARGET_HEIGHTS = [1080, 720, 480, 360]`
(src/api/extract.py line 84). -/
def DEFAULT_TARGET_HEIGHTS : List Int := [1080, 720, 480, 360]

/-- `normalize_codec_name` (src/api/extract.py lines 859-884).  The
argument is the Python value of a codec field (possibly `None`). -/
def normalize_codec_name (codec : Option String) : String :=
  match codec with
  | none => ""
  | some c =>
    if c = "" ∨ c = "none" then ""
    else
      let cl := pyLower c
      if strContains cl "avc" || strContains cl "h264" || strContains cl "h.264" then "H.264"
      else if strContains cl "vp9" || strContains cl "vp09" then "VP9"
      else if strContains cl "av01" || strContains cl "av1" then "AV1"
      else if strContains cl "hevc" || strContains cl "h265" || strContains cl "h.265" then "HEVC"
      else pyUpper ((pySplitDot c).headD "")

/-- `normalize_audio_codec_name` (src/api/extract.py lines 887-913). -/
def normalize_audio_codec_name (codec : Option String) : String :=
  match codec with
  | none => ""
  | some c =>
    if c = "" ∨ c = "none" then ""
    else
      let cl := pyLower c
      if strContains cl "mp4a" || strContains cl "aac" then "AAC"
      else if strContains cl "opus" then "Opus"
      else if strContains cl "mp3" || strContains cl "mpeg" then "MP3"
      else if strContains cl "vorbis" then "Vorbis"
      else if strContains cl "flac" then "FLAC"
      else pyUpper ((pySplitDot c).headD "")

/-- A raw yt-dlp format dict, restricted to the keys the engine reads. -/
structure RawFormat where
  url : PyField String := .absent
  vcodec : PyField String := .absent
  acodec : PyField String := .absent
  height : PyField Int := .absent
  width : PyField Int := .absent
  fps : PyField Int := .absent
  ext : PyField String := .absent
  abr : PyField Int := .absent
  filesize : PyField Int := .absent
  filesize_approx : PyField Int := .absent
  format_note : PyField String := .absent
  format_id : PyField String := .absent
  protocol : PyField String := .absent
deriving DecidableEq

/-- A video source dict as built by `process_video_formats` /
`process_youtube_formats`.  Option fields model keys removed by the
"Remove None values" comprehension.  `codecPrio` and `audioScore` model
the internal `_codec_priority` / `_has_audio_score` keys (generic
pipeline only).  `hgt` records the format height the source was built
from: in the Python code this information is the `_height` internal key
(generic pipeline) resp. the `seen_heights` entry (youtube pipeline),
and is what `resolution` displays; the model keeps it through cleanup so
that the dedup invariant can be stated about output sources. -/
structure VSource where
  quality : Option String := none
  url : Option String := none
  resolution : Option String := none
  mime : Option String := none
  extension : Option String := none
  filename : Option String := none
  hasAudio : Bool := false
  needsMerge : Bool := false
  codec : Option String := none
  size : Option Int := none
  format : Option String := none
  needsProxy : Option Bool := none
  codecPrio : Int := 99
  audioScore : Int := 1
  hgt : Option Int := none
deriving DecidableEq

/-- Strip the underscore-prefixed internal keys (`_codec_priority`,
`_has_audio_score`) from a video source; `hgt` is model bookkeeping and
is kept (see `VSource`). -/
def cleanV (s : VSource) : VSource :=
  { s with codecPrio := 99, audioScore := 1 }

/-- An audio source dict.  `bitrateInternal` models the `_bitrate` key
(`PyField` because a `None` value is removed by the builders but can be
present in arbitrary caller-supplied dicts). -/
structure ASource where
  quality : Option String := none
  url : Option String := none
  mime : Option String := none
  extension : Option String := none
  filename : Option String := none
  codec : Option String := none
  bitrate : PyField Int := .absent
  size : Option Int := none
  bitrateInternal : PyField Int := .absent
deriving DecidableEq

/-- Strip the `_bitrate` internal key. -/
def cleanA (s : ASource) : ASource :=
  { s with bitrateInternal := .absent }

/-- Python truthiness of an audio source dict (an empty dict is falsy;
used by `if best_aac:` / `if best_opus:`). -/
def ASource.isEmptyDict (s : ASource) : Bool :=
  s.quality.isNone && s.url.isNone && s.mime.isNone && s.extension.isNone &&
    s.filename.isNone && s.codec.isNone && s.bitrate == .absent &&
    s.size.isNone && s.bitrateInternal == .absent

/-- Stable ordered insertion: `x` goes after every element `y` of the
accumulator with `le y x`, matching the stability of Python `list.sort`. -/
def insertBy {α : Type} (le : α → α → Bool) (x : α) : List α → List α
  | [] => [x]
  | y :: ys => if le y x then y :: insertBy le x ys else x :: y :: ys

/-- Stable insertion sort, the model of Python `list.sort(key=...)`. -/
def sortBy {α : Type} (le : α → α → Bool) (xs : List α) : List α :=
  xs.foldl (fun acc x => insertBy le x acc) []

/-- Running first-minimum: the earliest element among `best :: xs` with
strictly smallest key. -/
def firstMinByGo {α : Type} (k : α → Int) (best : α) : List α → α
  | [] => best
  | x :: xs => if k x < k best then firstMinByGo k x xs else firstMinByGo k best xs

/-- First element of a list minimizing an integer key (earlier elements
win ties) — what stable ascending sort puts at index 0. -/
def firstMinBy {α : Type} (k : α → Int) : List α → Option α
  | [] => none
  | x :: xs => some (firstMinByGo k x xs)

/-- Lexicographic `≤` on int pairs, as compared by Python tuple sort keys. -/
def lexLe (p q : Int × Int) : Bool :=
  decide (p.1 < q.1) || (p.1 == q.1 && decide (p.2 ≤ q.2))

/-- `abs(h - target_h) <= target_h * tolerance`, compared exactly over
`ℚ`.  Since `tol.den > 0`, the rational inequality `|h - t| ≤ t * tol`
is equivalent to the integer comparison `|h - t| * tol.den ≤ t * tol.num`
used here (see `tolOk_iff` below); the integer form keeps the
definition kernel-computable.  For the concrete targets appearing in
the claims the Python float comparison agrees with the exact rational
one (header note). -/
def tolOk (h t : Int) (tol : ℚ) : Bool :=
  decide (((h - t).natAbs : Int) * (tol.den : Int) ≤ t * tol.num)

/-- `is_hls_format` URL/protocol test (src/api/extract.py lines
1160-1171), once the url string is known to be an actual string. -/
def is_hls_core (url : String) (protocol : Option String) : Bool :=
  strContains url ".m3u8" || strContains url "/manifest/" || strContains url "index.m3u8" ||
    protocol == some "m3u8" || protocol == some "m3u8_native" || protocol == some "hls"

/-- `is_hls_format` (src/api/extract.py lines 1151-1171).  `'.m3u8' in
url` raises a `TypeError` when the url value is `None`. -/
def is_hls_format (fmt : RawFormat) : Except String Bool :=
  match fmt.url.get "" with
  | none => .error "TypeError"
  | some url => .ok (is_hls_core url (fmt.protocol.get ""))

/-- `is_progressive_format` (src/api/extract.py lines 1174-1185). -/
def is_progressive_format (fmt : RawFormat) : Bool :=
  fmt.vcodec.get "none" ≠ some "none" && fmt.acodec.get "none" ≠ some "none"

/-- The video-source builder of the generic pipeline
(src/api/extract.py lines 975-1015), including the internal ranking
keys and the "Remove None values" step. -/
def buildVideoSource (codec_priority : List (String × Int)) (fmt : RawFormat) : VSource :=
  let height := fmt.height.get 0
  let width := fmt.width.get 0
  let vcodec := fmt.vcodec.get "none"
  let acodec := fmt.acodec.get "none"
  let codec_name := normalize_codec_name vcodec
  let quality0 : Option String :=
    if truthyS fmt.format_note.get? then fmt.format_note.get?
    else
      match height with
      | some h => if h ≠ 0 then some (toString h ++ "p") else fmt.format_id.get "default"
      | none => fmt.format_id.get "default"
  let quality : Option String :=
    match fmt.fps.get? with
    | some f => if f ≠ 0 ∧ f > 30 then some (pyOptStr quality0 ++ " " ++ toString f ++ "fps") else quality0
    | none => quality0
  let ext := fmt.ext.get "mp4"
  let filesize := pyOrI fmt.filesize.get? fmt.filesize_approx.get?
  let has_audio := acodec ≠ some "none"
  { quality := quality
    url := fmt.url.get?
    resolution :=
      match width, height with
      | some w, some h => if w ≠ 0 ∧ h ≠ 0 then some (toString w ++ "x" ++ toString h) else none
      | _, _ => none
    mime := some ("video/" ++ pyOptStr ext)
    extension := ext
    filename := some ("video_" ++ pyOptStr quality ++ "." ++ pyOptStr ext)
    hasAudio := has_audio
    needsMerge := !has_audio
    codec := if codec_name ≠ "" then some codec_name else none
    size := if truthyI filesize then filesize else none
    codecPrio := lookupD codec_priority codec_name 99
    audioScore := if has_audio then 0 else 1
    hgt := height }

/-- The audio-source builder shared (verbatim) by the generic pipeline
(src/api/extract.py lines 1051-1080) and the youtube pipeline (lines
1347-1372); only the default `ext` is `'m4a'` in both. -/
def buildAudioSource (fmt : RawFormat) : ASource :=
  let acodec := fmt.acodec.get "none"
  let abr := fmt.abr.get 0
  let ext := fmt.ext.get "m4a"
  let filesize := pyOrI fmt.filesize.get? fmt.filesize_approx.get?
  let codec_name := normalize_audio_codec_name acodec
  let quality : Option String :=
    if truthyS fmt.format_note.get? then fmt.format_note.get?
    else
      match abr with
      | some a => if a ≠ 0 then some (toString a ++ "kbps") else fmt.format_id.get "audio"
      | none => fmt.format_id.get "audio"
  { quality := quality
    url := fmt.url.get?
    mime := some ("audio/" ++ pyOptStr ext)
    extension := ext
    filename := some ("audio_" ++ pyOptStr quality ++ "." ++ pyOptStr ext)
    codec := if codec_name ≠ "" then some codec_name else none
    bitrate :=
      match abr with
      | some a => if a ≠ 0 then .val a else .absent
      | none => .absent
    size := if truthyI filesize then filesize else none
    bitrateInternal :=
      match abr with
      | some a => .val a
      | none => .absent }

/-- First categorization pass of `process_video_formats`
(src/api/extract.py lines 953-969): drop urlless formats, split the
rest into video-capable and audio-only.  No HLS test is performed
here. -/
def catGStep (acc : List RawFormat × List RawFormat) (fmt : RawFormat) :
    List RawFormat × List RawFormat :=
  if truthyS fmt.url.get? then
    let vcodec := fmt.vcodec.get "none"
    let acodec := fmt.acodec.get "none"
    if vcodec = some "none" ∧ acodec ≠ some "none" then (acc.1, acc.2 ++ [fmt])
    else if vcodec ≠ some "none" then (acc.1 ++ [fmt], acc.2)
    else acc
  else acc

/-- The two buckets of the generic first pass. -/
def categorizeGeneric (formats : List RawFormat) : List RawFormat × List RawFormat :=
  formats.foldl catGStep ([], [])

/-- Insertion-ordered `by_height[height].append(source)` on the bucket
dict (src/api/extract.py lines 1017-1020). -/
def addBucket (bh : List (Option Int × List VSource)) (h : Option Int) (s : VSource) :
    List (Option Int × List VSource) :=
  match bh with
  | [] => [(h, [s])]
  | (k, l) :: rest => if k = h then (k, l ++ [s]) :: rest else (k, l) :: addBucket rest h s

/-- Build the `by_height` dict from the video-capable formats
(src/api/extract.py lines 973-1020). -/
def buildBuckets (codec_priority : List (String × Int)) (fmts : List RawFormat) :
    List (Option Int × List VSource) :=
  fmts.foldl (fun bh fmt => addBucket bh (fmt.height.get 0) (buildVideoSource codec_priority fmt)) []

/-- The inner `for h in by_height.keys()` scan for one target height
(src/api/extract.py lines 1025-1029).  `abs(h - target_h)` raises on a
`None` key.  The tolerance test uses the float comparison (modelled in
`ℚ`); the strict improvement test compares integer distances. -/
def findBestAux (tol : ℚ) (t : Int) (best : Option Int) : List (Option Int) → Except String (Option Int)
  | [] => .ok best
  | none :: _ => .error "TypeError"
  | some h :: rest =>
    if tolOk h t tol then
      match best with
      | none => findBestAux tol t (some h) rest
      | some b =>
        if (h - t).natAbs < (b - t).natAbs then findBestAux tol t (some h) rest
        else findBestAux tol t (some b) rest
    else findBestAux tol t best rest

/-- `best_match_height` scan starting from `None`. -/
def findBest (tol : ℚ) (t : Int) (keys : List (Option Int)) : Except String (Option Int) :=
  findBestAux tol t none keys

/-- Comparator for `candidates.sort(key=lambda x: (x.get('_has_audio_score', 1),
x.get('_codec_priority', 99)))` (src/api/extract.py lines 1035-1038);
both keys are always present on built sources. -/
def vLe (a b : VSource) : Bool :=
  lexLe (a.audioScore, a.codecPrio) (b.audioScore, b.codecPrio)

/-- Ordered lookup in the bucket dict. -/
def bhLookup (bh : List (Option Int × List VSource)) (h : Option Int) : Option (List VSource) :=
  match bh.find? (fun p => p.1 = h) with
  | some p => some p.2
  | none => none

/-- `del by_height[h]`. -/
def delKey (bh : List (Option Int × List VSource)) (h : Option Int) :
    List (Option Int × List VSource) :=
  bh.filter (fun p => p.1 ≠ h)

/-- The per-target selection loop of the generic pipeline
(src/api/extract.py lines 1022-1047): find the closest in-tolerance
bucket, check Python truthiness of the best height and of the bucket,
sort the bucket stably, emit the cleaned first candidate, delete the
bucket. -/
def selectLoop (tol : ℚ) : List Int → List (Option Int × List VSource) → List VSource →
    Except String (List VSource)
  | [], _, out => .ok out
  | t :: ts, bh, out =>
    match findBest tol t (bh.map Prod.fst) with
    | .error e => .error e
    | .ok none => selectLoop tol ts bh out
    | .ok (some hv) =>
      let cands := (bhLookup bh (some hv)).getD []
      if hv ≠ 0 ∧ cands ≠ [] then
        match sortBy vLe cands with
        | [] => selectLoop tol ts bh out
        | c :: _ => selectLoop tol ts (delKey bh (some hv)) (out ++ [cleanV c])
      else selectLoop tol ts bh out

/-- `process_video_formats` (src/api/extract.py lines 916-1082), the
generic height-bucket pipeline, with `info` at its default. -/
def process_video_formats (formats : List RawFormat) (target_heights : List Int)
    (codec_priority : List (String × Int)) (height_tolerance : ℚ) :
    Except String (List VSource × List ASource) :=
  let (video_formats, audio_formats) := categorizeGeneric formats
  let bh := buildBuckets codec_priority video_formats
  match selectLoop height_tolerance target_heights bh [] with
  | .error e => .error e
  | .ok video_sources => .ok (video_sources, audio_formats.map buildAudioSource)

instance {e a : Type} [DecidableEq e] [DecidableEq a] : DecidableEq (Except e a)
  | .error x, .error y =>
    if h : x = y then .isTrue (by rw [h]) else .isFalse (fun hc => h (Except.error.inj hc))
  | .error _, .ok _ => .isFalse (fun hc => Except.noConfusion hc)
  | .ok _, .error _ => .isFalse (fun hc => Except.noConfusion hc)
  | .ok x, .ok y =>
    if h : x = y then .isTrue (by rw [h]) else .isFalse (fun hc => h (Except.ok.inj hc))

/-- Error-propagating map, the model of Python evaluating an operation
on every list element in order (`sort` key building, loops). -/
def mapE {α β : Type} (f : α → Except String β) : List α → Except String (List β)
  | [] => .ok []
  | x :: xs =>
    match f x with
    | .error e => .error e
    | .ok y =>
      match mapE f xs with
      | .error e => .error e
      | .ok ys => .ok (y :: ys)

/-- The effective bitrate `x.get('_bitrate', x.get('bitrate', 0))` as a
Python value (`none` = the lookup yields Python `None`): an absent pair
of keys yields `0`.  The lookup itself never raises. -/
def effBitrate? (s : ASource) : Option Int :=
  match s.bitrateInternal with
  | .val v => some v
  | .null => none
  | .absent =>
    match s.bitrate with
    | .val v => some v
    | .null => none
    | .absent => some 0

/-- `x.get('_bitrate', x.get('bitrate', 0))` followed by use in int
arithmetic (src/api/extract.py line 1118): the subtraction in the sort
key raises a `TypeError` when the lookup yields Python `None`, already
while the key is computed, so for every member of a sorted group. -/
def effBitrateE (s : ASource) : Except String Int :=
  match s.bitrateInternal with
  | .val v => .ok v
  | .null => .error "TypeError"
  | .absent =>
    match s.bitrate with
    | .val v => .ok v
    | .null => .error "TypeError"
    | .absent => .ok 0

/-- `pick_best_by_bitrate` (src/api/extract.py lines 1111-1120): stable
sort by absolute distance to the target bitrate, return element 0. -/
def pick_best_by_bitrate (sources : List ASource) (target : Int) : Except String (Option ASource) :=
  if sources.isEmpty then .ok none
  else
    match mapE (fun s => (effBitrateE s).map (fun v => (s, |v - target|))) sources with
    | .error e => .error e
    | .ok pairs => .ok ((sortBy (fun a b => decide (a.2 ≤ b.2)) pairs).head?.map Prod.fst)

/-- `process_audio_formats` (src/api/extract.py lines 1085-1144): best
AAC and best Opus by distance to target, else the single
highest-bitrate other-codec source.  `if best_aac:` is dict truthiness,
hence the `isEmptyDict` guards.  The fallback's sort key is the plain
lookup (no arithmetic), so CPython raises only when a comparison
touches a `None` key: with at least two elements and some `None` key
every run of the sort performs such a comparison (`None` is unordered
even against `None`), with fewer elements no comparison runs at all. -/
def process_audio_formats (audio_sources : List ASource) (target_bitrate : Int) :
    Except String (List ASource) :=
  if audio_sources.isEmpty then .ok []
  else
    let aac := audio_sources.filter (fun s => s.codec == some "AAC")
    let opus := audio_sources.filter (fun s => s.codec == some "Opus")
    let other := audio_sources.filter (fun s => !(s.codec == some "AAC" || s.codec == some "Opus"))
    match pick_best_by_bitrate aac target_bitrate with
    | .error e => .error e
    | .ok bestAac =>
      match pick_best_by_bitrate opus target_bitrate with
      | .error e => .error e
      | .ok bestOpus =>
        let r1 : List ASource :=
          match bestAac with
          | some s => if s.isEmptyDict then [] else [cleanA s]
          | none => []
        let r2 : List ASource :=
          match bestOpus with
          | some s => if s.isEmptyDict then r1 else r1 ++ [cleanA s]
          | none => r1
        if r2.isEmpty ∧ other ≠ [] then
          if 2 ≤ other.length ∧ other.any (fun s => (effBitrate? s).isNone) then
            .error "TypeError"
          else
            match sortBy (fun a b => decide (b.2 ≤ a.2))
                (other.map (fun s => (s, (effBitrate? s).getD 0))) with
            | [] => .ok r2
            | p :: _ => .ok [cleanA p.1]
        else .ok r2

/-- First categorization pass of `process_youtube_formats`
(src/api/extract.py lines 1236-1258): urlless dropped, HLS collected
separately (when requested), then audio-only / progressive /
DASH-video-only. -/
def catYStep (include_hls : Bool)
    (acc : List RawFormat × List RawFormat × List RawFormat × List RawFormat)
    (fmt : RawFormat) :
    List RawFormat × List RawFormat × List RawFormat × List RawFormat :=
  let (prog, dash, aud, hls) := acc
  match fmt.url.get? with
  | none => acc
  | some u =>
    if u = "" then acc
    else if is_hls_core u (fmt.protocol.get "") then
      if include_hls then (prog, dash, aud, hls ++ [fmt]) else acc
    else
      let vcodec := fmt.vcodec.get "none"
      let acodec := fmt.acodec.get "none"
      if vcodec = some "none" ∧ acodec ≠ some "none" then (prog, dash, aud ++ [fmt], hls)
      else if is_progressive_format fmt then (prog ++ [fmt], dash, aud, hls)
      else if vcodec ≠ some "none" then (prog, dash ++ [fmt], aud, hls)
      else acc

/-- The four buckets of the youtube first pass. -/
def categorizeYT (include_hls : Bool) (formats : List RawFormat) :
    List RawFormat × List RawFormat × List RawFormat × List RawFormat :=
  formats.foldl (catYStep include_hls) ([], [], [], [])

/-- The `build_source` closure of `process_youtube_formats`
(src/api/extract.py lines 1264-1294). -/
def buildSourceYT (fmt : RawFormat) (has_audio : Bool) : VSource :=
  let height := fmt.height.get 0
  let width := fmt.width.get 0
  let vcodec := fmt.vcodec.get "none"
  let codec_name := normalize_codec_name vcodec
  let quality0 : Option String :=
    if truthyS fmt.format_note.get? then fmt.format_note.get?
    else
      match height with
      | some h => if h ≠ 0 then some (toString h ++ "p") else fmt.format_id.get "default"
      | none => fmt.format_id.get "default"
  let quality : Option String :=
    match fmt.fps.get? with
    | some f => if f ≠ 0 ∧ f > 30 then some (pyOptStr quality0 ++ " " ++ toString f ++ "fps") else quality0
    | none => quality0
  let ext := fmt.ext.get "mp4"
  let filesize := pyOrI fmt.filesize.get? fmt.filesize_approx.get?
  { quality := quality
    url := fmt.url.get?
    resolution :=
      match width, height with
      | some w, some h => if w ≠ 0 ∧ h ≠ 0 then some (toString w ++ "x" ++ toString h) else none
      | _, _ => none
    mime := some ("video/" ++ pyOptStr ext)
    extension := ext
    filename := some ("video_" ++ pyOptStr quality ++ "." ++ pyOptStr ext)
    hasAudio := has_audio
    needsMerge := !has_audio
    codec := if codec_name ≠ "" then some codec_name else none
    size := if truthyI filesize then filesize else none
    hgt := height }

/-- Key computation phase of `list.sort` over formats: the key
`-x.get('height', 0)` raises on a `None` height for every list element,
before any selection happens. -/
def pairHeights (fmts : List RawFormat) : Except String (List (RawFormat × Int)) :=
  mapE (fun f =>
    match f.height.get 0 with
    | none => .error "TypeError"
    | some h => .ok (f, h)) fmts

/-- Codec-priority part of the youtube sort key
(`codec_priority.get(normalize_codec_name(x.get('vcodec', '')), 99)`,
src/api/extract.py lines 1298-1301). -/
def ytKeyPrio (codec_priority : List (String × Int)) (f : RawFormat) : Int :=
  lookupD codec_priority (normalize_codec_name (f.vcodec.get "")) 99

/-- Comparator for the `(-height, codec priority)` sort key. -/
def ytLe (codec_priority : List (String × Int)) (a b : RawFormat × Int) : Bool :=
  lexLe (-a.2, ytKeyPrio codec_priority a.1) (-b.2, ytKeyPrio codec_priority b.1)

/-- Step 1 of the youtube pipeline (src/api/extract.py lines
1303-1323): emit progressive formats at unseen heights at or below the
ceiling (the `height_match or height <= max_progressive_height` test is
kept literally). -/
def progLoop (maxH : Int) (targets : List Int) :
    List (RawFormat × Int) → List Int → List VSource → List Int × List VSource
  | [], seen, out => (seen, out)
  | (fmt, h) :: rest, seen, out =>
    if h > maxH then progLoop maxH targets rest seen out
    else if h ∈ seen then progLoop maxH targets rest seen out
    else
      let height_match := targets.any (fun t => tolOk h t (mkRat 1 10))
      if height_match = true ∨ h ≤ maxH then
        progLoop maxH targets rest (seen ++ [h]) (out ++ [buildSourceYT fmt true])
      else progLoop maxH targets rest seen out

/-- Step 2 of the youtube pipeline (src/api/extract.py lines
1331-1343): emit DASH formats at unseen heights within tolerance of a
target. -/
def dashLoop (targets : List Int) :
    List (RawFormat × Int) → List Int → List VSource → List Int × List VSource
  | [], seen, out => (seen, out)
  | (fmt, h) :: rest, seen, out =>
    if h ∈ seen then dashLoop targets rest seen out
    else
      match targets.find? (fun t => tolOk h t (mkRat 1 10)) with
      | some _ => dashLoop targets rest (seen ++ [h]) (out ++ [buildSourceYT fmt false])
      | none => dashLoop targets rest seen out

/-- HLS source builder of step 3 (src/api/extract.py lines 1397-1428):
fixed mp4 mime/extension, `format='hls'`, `needsMerge=False`,
`needsProxy=True`. -/
def buildHlsSource (fmt : RawFormat) : VSource :=
  let height := fmt.height.get 0
  let width := fmt.width.get 0
  let vcodec := fmt.vcodec.get "none"
  let acodec := fmt.acodec.get "none"
  let codec_name := normalize_codec_name vcodec
  let quality0 : Option String :=
    if truthyS fmt.format_note.get? then fmt.format_note.get?
    else
      match height with
      | some h => if h ≠ 0 then some (toString h ++ "p") else fmt.format_id.get "default"
      | none => fmt.format_id.get "default"
  let quality : Option String :=
    match fmt.fps.get? with
    | some f => if f ≠ 0 ∧ f > 30 then some (pyOptStr quality0 ++ " " ++ toString f ++ "fps") else quality0
    | none => quality0
  let filesize := pyOrI fmt.filesize.get? fmt.filesize_approx.get?
  { quality := quality
    url := fmt.url.get?
    resolution :=
      match width, height with
      | some w, some h => if w ≠ 0 ∧ h ≠ 0 then some (toString w ++ "x" ++ toString h) else none
      | _, _ => none
    mime := some "video/mp4"
    extension := some "mp4"
    filename := some ("video_" ++ pyOptStr quality ++ ".mp4")
    format := some "hls"
    hasAudio := acodec ≠ some "none"
    needsMerge := false
    needsProxy := some true
    codec := if codec_name ≠ "" then some codec_name else none
    size := if truthyI filesize then filesize else none
    hgt := height }

/-- Comparator for `hls_formats.sort(key=lambda x: -x.get('height', 0))`. -/
def hlsLe (a b : RawFormat × Int) : Bool :=
  decide ((-a.2 : Int) ≤ -b.2)

/-- Step 3 loop of the youtube pipeline (src/api/extract.py lines
1386-1430): first in-tolerance target wins per unseen height. -/
def hlsLoop (targets : List Int) :
    List (RawFormat × Int) → List Int → List VSource → List Int × List VSource
  | [], seen, out => (seen, out)
  | (fmt, h) :: rest, seen, out =>
    if h ∈ seen then hlsLoop targets rest seen out
    else
      match targets.find? (fun t => tolOk h t (mkRat 1 10)) with
      | some _ => hlsLoop targets rest (seen ++ [h]) (out ++ [buildHlsSource fmt])
      | none => hlsLoop targets rest seen out

/-- `process_youtube_formats` (src/api/extract.py lines 1188-1432), the
progressive-priority pipeline, with `info` at its default. -/
def process_youtube_formats (formats : List RawFormat) (max_progressive_height : Int)
    (target_heights : List Int) (codec_priority : List (String × Int)) (include_hls : Bool) :
    Except String (List VSource × List ASource × List VSource) :=
  let c := categorizeYT include_hls formats
  let prog := c.1
  let dash := c.2.1
  let aud := c.2.2.1
  let hls := c.2.2.2
  match pairHeights prog with
  | .error e => .error e
  | .ok progP =>
    let r1 := progLoop max_progressive_height target_heights
      (sortBy (ytLe codec_priority) progP) [] []
    match pairHeights dash with
    | .error e => .error e
    | .ok dashP =>
      let r2 := dashLoop target_heights (sortBy (ytLe codec_priority) dashP) r1.1 r1.2
      match process_audio_formats (aud.map buildAudioSource) 128 with
      | .error e => .error e
      | .ok audio_sources =>
        if include_hls ∧ hls ≠ [] then
          match pairHeights hls with
          | .error e => .error e
          | .ok hlsP =>
            let r3 := hlsLoop target_heights (sortBy hlsLe hlsP) [] []
            .ok (r2.2, audio_sources, r3.2)
        else .ok (r2.2, audio_sources, [])

theorem mem_insertBy {α : Type} (le : α → α → Bool) (x y : α) :
    ∀ l : List α, y ∈ insertBy le x l ↔ y = x ∨ y ∈ l := by
  intro l
  induction l with
  | nil => simp [insertBy]
  | cons z zs ih =>
    by_cases h : le z x = true
    · simp [insertBy, h, ih]
      tauto
    · simp [insertBy, h]

theorem mem_foldl_insertBy {α : Type} (le : α → α → Bool) (y : α) :
    ∀ (xs acc : List α), y ∈ xs.foldl (fun a x => insertBy le x a) acc ↔ y ∈ acc ∨ y ∈ xs := by
  intro xs
  induction xs with
  | nil => simp
  | cons x xs ih =>
    intro acc
    simp only [List.foldl_cons, ih, mem_insertBy, List.mem_cons]
    tauto

theorem mem_sortBy {α : Type} (le : α → α → Bool) (y : α) (xs : List α) :
    y ∈ sortBy le xs ↔ y ∈ xs := by
  unfold sortBy
  rw [mem_foldl_insertBy]
  simp

theorem head?_insertBy {α : Type} (le : α → α → Bool) (x : α) (l : List α) :
    (insertBy le x l).head? =
      some (match l with | [] => x | z :: _ => if le z x then z else x) := by
  cases l with
  | nil => rfl
  | cons z zs =>
    by_cases h : le z x = true
    · simp [insertBy, h]
    · simp [insertBy, h]

theorem foldl_insertBy_head? {α : Type} (k : α → Int) :
    ∀ (xs acc : List α),
      (xs.foldl (fun a x => insertBy (fun a b => decide (k a ≤ k b)) x a) acc).head? =
        xs.foldl
          (fun b x =>
            match b with
            | none => some x
            | some b0 => if k x < k b0 then some x else some b0)
          acc.head? := by
  intro xs
  induction xs with
  | nil => intro acc; rfl
  | cons x xs ih =>
    intro acc
    rw [List.foldl_cons, ih, List.foldl_cons]
    congr 1
    rw [head?_insertBy]
    cases acc with
    | nil => rfl
    | cons z zs =>
      by_cases h : k z ≤ k x
      · simp [h, not_lt.mpr h]
      · simp [h, lt_of_not_le h]

theorem foldFirstMin_eq {α : Type} (k : α → Int) :
    ∀ (xs : List α) (b : Option α),
      xs.foldl
          (fun best x =>
            match best with
            | none => some x
            | some b0 => if k x < k b0 then some x else some b0)
          b =
        (match b with
          | none => firstMinBy k xs
          | some b0 => some (firstMinByGo k b0 xs)) := by
  intro xs
  induction xs with
  | nil => intro b; cases b <;> rfl
  | cons x xs ih =>
    intro b
    cases b with
    | none =>
      rw [List.foldl_cons]
      have := ih (some x)
      simpa [firstMinBy] using this
    | some b0 =>
      rw [List.foldl_cons]
      by_cases hlt : k x < k b0
      · have := ih (some x)
        simp only [hlt, if_pos] at this ⊢
        simpa [firstMinByGo, hlt] using this
      · have := ih (some b0)
        simpa [firstMinByGo, hlt] using this

theorem sortBy_head?_firstMinBy {α : Type} (k : α → Int) (xs : List α) :
    (sortBy (fun a b => decide (k a ≤ k b)) xs).head? = firstMinBy k xs := by
  unfold sortBy
  rw [foldl_insertBy_head?]
  have := foldFirstMin_eq k xs none
  simpa using this

theorem firstMinByGo_mem {α : Type} (k : α → Int) :
    ∀ (xs : List α) (b : α), firstMinByGo k b xs = b ∨ firstMinByGo k b xs ∈ xs := by
  intro xs
  induction xs with
  | nil => intro b; exact Or.inl rfl
  | cons x xs ih =>
    intro b
    unfold firstMinByGo
    by_cases hlt : k x < k b
    · rw [if_pos hlt]
      rcases ih x with h1 | h1
      · exact Or.inr (by simp [h1])
      · exact Or.inr (by simp [h1])
    · rw [if_neg hlt]
      rcases ih b with h1 | h1
      · exact Or.inl h1
      · exact Or.inr (by simp [h1])

theorem firstMinByGo_min {α : Type} (k : α → Int) :
    ∀ (xs : List α) (b : α),
      k (firstMinByGo k b xs) ≤ k b ∧ ∀ c ∈ xs, k (firstMinByGo k b xs) ≤ k c := by
  intro xs
  induction xs with
  | nil => intro b; exact ⟨le_refl _, by simp⟩
  | cons x xs ih =>
    intro b
    unfold firstMinByGo
    by_cases hlt : k x < k b
    · rw [if_pos hlt]
      obtain ⟨h1, h2⟩ := ih x
      refine ⟨le_trans h1 (le_of_lt hlt), ?_⟩
      intro c hc
      rcases List.mem_cons.mp hc with hc1 | hc1
      · subst hc1; exact h1
      · exact h2 c hc1
    · rw [if_neg hlt]
      obtain ⟨h1, h2⟩ := ih b
      refine ⟨h1, ?_⟩
      intro c hc
      rcases List.mem_cons.mp hc with hc1 | hc1
      · subst hc1; exact le_trans h1 (not_lt.mp hlt)
      · exact h2 c hc1

theorem mapE_nil {α β : Type} (f : α → Except String β) : mapE f [] = .ok [] := rfl

theorem mapE_mem {α β : Type} (f : α → Except String β) :
    ∀ (xs : List α) (ys : List β), mapE f xs = .ok ys → ∀ y ∈ ys, ∃ x ∈ xs, f x = .ok y := by
  intro xs
  induction xs with
  | nil => intro ys h y hy; simp [mapE] at h; subst h; simp at hy
  | cons x xs ih =>
    intro ys h y hy
    unfold mapE at h
    cases hfx : f x with
    | error e => rw [hfx] at h; exact absurd h (by simp)
    | ok y0 =>
      rw [hfx] at h
      cases hrest : mapE f xs with
      | error e => rw [hrest] at h; exact absurd h (by simp)
      | ok ys0 =>
        rw [hrest] at h
        have : y0 :: ys0 = ys := by simpa using h
        subst this
        rcases List.mem_cons.mp hy with h1 | h1
        · exact ⟨x, by simp, h1 ▸ hfx⟩
        · obtain ⟨x0, hx0, hfx0⟩ := ih ys0 hrest y h1
          exact ⟨x0, by simp [hx0], hfx0⟩

theorem mapE_eq_ok {α β : Type} (f : α → Except String β) (g : α → β) :
    ∀ xs : List α, (∀ x ∈ xs, f x = .ok (g x)) → mapE f xs = .ok (xs.map g) := by
  intro xs
  induction xs with
  | nil => intro _; rfl
  | cons x xs ih =>
    intro h
    unfold mapE
    rw [h x (by simp), ih (fun x hx => h x (by simp [hx]))]
    rfl

theorem cleanV_hgt (s : VSource) : (cleanV s).hgt = s.hgt := rfl

theorem cleanV_hasAudio (s : VSource) : (cleanV s).hasAudio = s.hasAudio := rfl

theorem cleanV_needsMerge (s : VSource) : (cleanV s).needsMerge = s.needsMerge := rfl

theorem buildVideoSource_hgt (cp : List (String × Int)) (fmt : RawFormat) :
    (buildVideoSource cp fmt).hgt = fmt.height.get 0 := rfl

theorem buildVideoSource_flags (cp : List (String × Int)) (fmt : RawFormat) :
    (buildVideoSource cp fmt).needsMerge = !(buildVideoSource cp fmt).hasAudio := rfl

theorem buildSourceYT_hgt (fmt : RawFormat) (b : Bool) :
    (buildSourceYT fmt b).hgt = fmt.height.get 0 := rfl

theorem buildSourceYT_flags (fmt : RawFormat) (b : Bool) :
    (buildSourceYT fmt b).needsMerge = !(buildSourceYT fmt b).hasAudio := rfl

theorem buildHlsSource_needsMerge (fmt : RawFormat) :
    (buildHlsSource fmt).needsMerge = false := rfl

theorem buildHlsSource_hgt (fmt : RawFormat) :
    (buildHlsSource fmt).hgt = fmt.height.get 0 := rfl

theorem findBestAux_mem (tol : ℚ) (t : Int) :
    ∀ (keys : List (Option Int)) (best : Option Int) (hv : Int),
      findBestAux tol t best keys = .ok (some hv) → some hv ∈ keys ∨ best = some hv := by
  intro keys
  induction keys with
  | nil =>
    intro best hv h
    simp [findBestAux] at h
    exact Or.inr h
  | cons k rest ih =>
    intro best hv h
    cases k with
    | none => simp [findBestAux] at h
    | some h0 =>
      unfold findBestAux at h
      by_cases hc : tolOk h0 t tol = true
      · rw [if_pos hc] at h
        cases best with
        | none =>
          rcases ih (some h0) hv h with h1 | h1
          · exact Or.inl (List.mem_cons_of_mem _ h1)
          · exact Or.inl (by simp [h1.symm])
        | some b =>
          replace h :
              (if (h0 - t).natAbs < (b - t).natAbs then findBestAux tol t (some h0) rest
                else findBestAux tol t (some b) rest) = Except.ok (some hv) := h
          by_cases hlt : (h0 - t).natAbs < (b - t).natAbs
          · rw [if_pos hlt] at h
            rcases ih (some h0) hv h with h1 | h1
            · exact Or.inl (List.mem_cons_of_mem _ h1)
            · exact Or.inl (by simp [h1.symm])
          · rw [if_neg hlt] at h
            rcases ih (some b) hv h with h1 | h1
            · exact Or.inl (List.mem_cons_of_mem _ h1)
            · exact Or.inr h1
      · rw [if_neg hc] at h
        rcases ih best hv h with h1 | h1
        · exact Or.inl (List.mem_cons_of_mem _ h1)
        · exact Or.inr h1

theorem findBest_mem (tol : ℚ) (t : Int) (keys : List (Option Int)) (hv : Int)
    (h : findBest tol t keys = .ok (some hv)) : some hv ∈ keys := by
  rcases findBestAux_mem tol t keys none hv h with h1 | h1
  · exact h1
  · exact absurd h1 (by simp)

theorem bhLookup_mem (bh : List (Option Int × List VSource)) (h : Option Int)
    (l : List VSource) (hl : bhLookup bh h = some l) : (h, l) ∈ bh := by
  unfold bhLookup at hl
  cases hf : bh.find? (fun p => p.1 = h) with
  | none => rw [hf] at hl; exact absurd hl (by simp)
  | some p =>
    rw [hf] at hl
    have hmem := List.mem_of_find?_eq_some hf
    have hkey : p.1 = h := by
      have := List.find?_some hf
      simpa using this
    have hval : p.2 = l := by simpa using hl
    have : p = (h, l) := by
      cases p
      simp_all
    exact this ▸ hmem

theorem delKey_sub (bh : List (Option Int × List VSource)) (h : Option Int) :
    ∀ p ∈ delKey bh h, p ∈ bh := by
  intro p hp
  exact List.mem_of_mem_filter hp

theorem delKey_keys (bh : List (Option Int × List VSource)) (h : Option Int) :
    ∀ x ∈ (delKey bh h).map Prod.fst, x ∈ bh.map Prod.fst ∧ x ≠ h := by
  intro x hx
  rcases List.mem_map.mp hx with ⟨p, hp, hpx⟩
  have hmem := List.mem_of_mem_filter hp
  have hkey := List.of_mem_filter hp
  constructor
  · exact List.mem_map.mpr ⟨p, hmem, hpx⟩
  · subst hpx
    simpa using hkey

theorem addBucket_wf {Q : VSource → Prop} :
    ∀ (bh : List (Option Int × List VSource)) (h : Option Int) (s : VSource),
      (∀ p ∈ bh, ∀ x ∈ p.2, x.hgt = p.1 ∧ Q x) → s.hgt = h → Q s →
      ∀ p ∈ addBucket bh h s, ∀ x ∈ p.2, x.hgt = p.1 ∧ Q x := by
  intro bh
  induction bh with
  | nil =>
    intro h s _ hs hq p hp x hx
    simp [addBucket] at hp
    subst hp
    simp at hx
    subst hx
    exact ⟨hs, hq⟩
  | cons q rest ih =>
    intro h s hwf hs hq p hp x hx
    obtain ⟨q1, q2⟩ := q
    unfold addBucket at hp
    by_cases hk : q1 = h
    · rw [if_pos (by simpa using hk)] at hp
      rcases List.mem_cons.mp hp with h1 | h1
      · subst h1
        rcases List.mem_append.mp hx with h2 | h2
        · exact hwf (q1, q2) (by simp) x h2
        · simp at h2
          subst h2
          exact ⟨by rw [hs, hk], hq⟩
      · exact hwf p (by simp [h1]) x hx
    · rw [if_neg (by simpa using hk)] at hp
      rcases List.mem_cons.mp hp with h1 | h1
      · subst h1
        exact hwf (q1, q2) (by simp) x hx
      · exact ih h s (fun p2 hp2 => hwf p2 (by simp [hp2])) hs hq p h1 x hx

theorem buildBuckets_wf (cp : List (String × Int)) :
    ∀ (fmts : List RawFormat) (acc : List (Option Int × List VSource))
      {Q : VSource → Prop},
      (∀ p ∈ acc, ∀ x ∈ p.2, x.hgt = p.1 ∧ Q x) →
      (∀ f ∈ fmts, Q (buildVideoSource cp f)) →
      ∀ p ∈ fmts.foldl
          (fun bh fmt => addBucket bh (fmt.height.get 0) (buildVideoSource cp fmt)) acc,
        ∀ x ∈ p.2, x.hgt = p.1 ∧ Q x := by
  intro fmts
  induction fmts with
  | nil => intro acc Q hacc _ p hp; exact hacc p hp
  | cons f fmts ih =>
    intro acc Q hacc hfmts p hp
    rw [List.foldl_cons] at hp
    exact ih _ (addBucket_wf acc _ _ hacc (buildVideoSource_hgt cp f) (hfmts f (by simp)))
      (fun f2 hf2 => hfmts f2 (by simp [hf2])) p hp

theorem catGStep_mem (acc : List RawFormat × List RawFormat) (fmt f : RawFormat) :
    (f ∈ (catGStep acc fmt).1 → f ∈ acc.1 ∨ f = fmt) ∧
      (f ∈ (catGStep acc fmt).2 → f ∈ acc.2 ∨ f = fmt) := by
  by_cases h1 : truthyS fmt.url.get? = true
  · by_cases h2 : fmt.vcodec.get "none" = some "none" ∧ fmt.acodec.get "none" ≠ some "none"
    · constructor
      · intro h
        exact Or.inl (by simpa [catGStep, h1, h2] using h)
      · intro h
        have h' : f ∈ acc.2 ++ [fmt] := by simpa [catGStep, h1, h2] using h
        rcases List.mem_append.mp h' with ha | ha
        · exact Or.inl ha
        · exact Or.inr (by simpa using ha)
    · by_cases h3 : fmt.vcodec.get "none" = some "none"
      · have h4 : fmt.acodec.get "none" = some "none" := by
          by_contra hB
          exact h2 ⟨h3, hB⟩
        constructor <;> intro h <;>
          exact Or.inl (by simpa [catGStep, h1, h3, h4] using h)
      · constructor
        · intro h
          have h' : f ∈ acc.1 ++ [fmt] := by simpa [catGStep, h1, h2, h3] using h
          rcases List.mem_append.mp h' with ha | ha
          · exact Or.inl ha
          · exact Or.inr (by simpa using ha)
        · intro h
          exact Or.inl (by simpa [catGStep, h1, h2, h3] using h)
  · constructor <;> intro h <;> exact Or.inl (by simpa [catGStep, h1] using h)

theorem categorizeGeneric_mem :
    ∀ (fmts : List RawFormat) (acc : List RawFormat × List RawFormat) (f : RawFormat),
      (f ∈ (fmts.foldl catGStep acc).1 → f ∈ acc.1 ∨ f ∈ fmts) ∧
        (f ∈ (fmts.foldl catGStep acc).2 → f ∈ acc.2 ∨ f ∈ fmts) := by
  intro fmts
  induction fmts with
  | nil => intro acc f; simp
  | cons x xs ih =>
    intro acc f
    rw [List.foldl_cons]
    constructor
    · intro h
      rcases (ih (catGStep acc x) f).1 h with h1 | h1
      · rcases (catGStep_mem acc x f).1 h1 with h2 | h2
        · exact Or.inl h2
        · exact Or.inr (by simp [h2])
      · exact Or.inr (by simp [h1])
    · intro h
      rcases (ih (catGStep acc x) f).2 h with h1 | h1
      · rcases (catGStep_mem acc x f).2 h1 with h2 | h2
        · exact Or.inl h2
        · exact Or.inr (by simp [h2])
      · exact Or.inr (by simp [h1])

theorem nodup_append_singleton {β : Type} (l : List β) (a : β) (h1 : l.Nodup) (h2 : a ∉ l) :
    (l ++ [a]).Nodup := by
  simp [List.nodup_append, h1, h2]

theorem selectLoop_inv (tol : ℚ) {Q : VSource → Prop} :
    ∀ (ts : List Int) (bh : List (Option Int × List VSource)) (out res : List VSource),
      selectLoop tol ts bh out = .ok res →
      (∀ p ∈ bh, ∀ s ∈ p.2, s.hgt = p.1 ∧ Q s) →
      (out.map VSource.hgt).Nodup →
      (∀ s ∈ out, (∃ s0, Q s0 ∧ s = cleanV s0) ∧ s.hgt ∉ bh.map Prod.fst) →
      (res.map VSource.hgt).Nodup ∧ ∀ s ∈ res, ∃ s0, Q s0 ∧ s = cleanV s0 := by
  intro ts
  induction ts with
  | nil =>
    intro bh out res h hwf hnd hout
    simp [selectLoop] at h
    subst h
    exact ⟨hnd, fun s hs => (hout s hs).1⟩
  | cons t ts ih =>
    intro bh out res h hwf hnd hout
    unfold selectLoop at h
    cases hfb : findBest tol t (bh.map Prod.fst) with
    | error e => rw [hfb] at h; exact absurd h (by simp)
    | ok best =>
      rw [hfb] at h
      cases best with
      | none => exact ih bh out res h hwf hnd hout
      | some hv =>
        replace h :
            (if hv ≠ 0 ∧ (bhLookup bh (some hv)).getD [] ≠ [] then
              match sortBy vLe ((bhLookup bh (some hv)).getD []) with
              | [] => selectLoop tol ts bh out
              | c :: _ => selectLoop tol ts (delKey bh (some hv)) (out ++ [cleanV c])
            else selectLoop tol ts bh out) = .ok res := h
        by_cases hnone : bhLookup bh (some hv) = none
        · rw [hnone] at h
          simp only [Option.getD_none] at h
          rw [if_neg (by simp)] at h
          exact ih bh out res h hwf hnd hout
        · obtain ⟨l, hl⟩ := Option.ne_none_iff_exists'.mp hnone
          rw [hl] at h
          simp only [Option.getD_some] at h
          by_cases hcond : hv ≠ 0 ∧ l ≠ []
          · rw [if_pos hcond] at h
            cases hsort : sortBy vLe l with
            | nil => rw [hsort] at h; exact ih bh out res h hwf hnd hout
            | cons c cs =>
              rw [hsort] at h
              have hcmem : c ∈ l := (mem_sortBy vLe c l).mp (by rw [hsort]; simp)
              have hbucket := hwf (some hv, l) (bhLookup_mem bh (some hv) l hl) c hcmem
              have hchgt : c.hgt = some hv := hbucket.1
              have hcQ : Q c := hbucket.2
              have hkeymem : some hv ∈ bh.map Prod.fst := findBest_mem tol t _ hv hfb
              apply ih (delKey bh (some hv)) (out ++ [cleanV c]) res h
              · intro p hp s hs
                exact hwf p (delKey_sub bh (some hv) p hp) s hs
              · simp only [List.map_append, List.map_cons, List.map_nil]
                apply nodup_append_singleton _ _ hnd
                intro hin
                rcases List.mem_map.mp hin with ⟨s, hsmem, hshgt⟩
                have hnotin := (hout s hsmem).2
                rw [hshgt, cleanV_hgt, hchgt] at hnotin
                exact hnotin hkeymem
              · intro s hs
                rcases List.mem_append.mp hs with h1 | h1
                · refine ⟨(hout s h1).1, ?_⟩
                  intro hin
                  rcases delKey_keys bh (some hv) _ hin with ⟨hin2, _⟩
                  exact (hout s h1).2 hin2
                · simp at h1
                  subst h1
                  refine ⟨⟨c, hcQ, rfl⟩, ?_⟩
                  rw [cleanV_hgt, hchgt]
                  intro hin
                  exact (delKey_keys bh (some hv) _ hin).2 rfl
          · rw [if_neg hcond] at h
            exact ih bh out res h hwf hnd hout

theorem process_video_formats_inv (formats : List RawFormat) (th : List Int)
    (cp : List (String × Int)) (tol : ℚ) (vs : List VSource) (as0 : List ASource)
    (h : process_video_formats formats th cp tol = .ok (vs, as0)) :
    (vs.map VSource.hgt).Nodup ∧
      ∀ s ∈ vs, ∃ f ∈ formats, s = cleanV (buildVideoSource cp f) := by
  replace h :
      (match selectLoop tol th (buildBuckets cp (categorizeGeneric formats).1) [] with
        | .error e => (.error e : Except String (List VSource × List ASource))
        | .ok video_sources =>
          .ok (video_sources, (categorizeGeneric formats).2.map buildAudioSource)) =
        .ok (vs, as0) := h
  cases hsel : selectLoop tol th (buildBuckets cp (categorizeGeneric formats).1) [] with
  | error e => rw [hsel] at h; exact absurd h (by simp)
  | ok vsel =>
    rw [hsel] at h
    simp only [Except.ok.injEq, Prod.mk.injEq] at h
    obtain ⟨hv1, _⟩ := h
    subst hv1
    have hwf : ∀ p ∈ buildBuckets cp (categorizeGeneric formats).1, ∀ x ∈ p.2,
        x.hgt = p.1 ∧ ∃ f ∈ formats, x = buildVideoSource cp f := by
      apply buildBuckets_wf cp _ _ (by simp)
      intro f hf
      refine ⟨f, ?_, rfl⟩
      have := (categorizeGeneric_mem formats ([], []) f).1 hf
      simpa using this
    have hmain := selectLoop_inv tol th _ [] vsel hsel hwf (by simp) (by simp)
    refine ⟨hmain.1, ?_⟩
    intro s hs
    obtain ⟨s0, ⟨f, hf, hs0⟩, hcl⟩ := hmain.2 s hs
    exact ⟨f, hf, by rw [hcl, hs0]⟩

theorem url_get_of_get? (fmt : RawFormat) (u : String) (h : fmt.url.get? = some u) :
    fmt.url.get "" = some u := by
  cases hf : fmt.url with
  | absent => rw [hf] at h; exact absurd h (by simp [PyField.get?])
  | null => rw [hf] at h; exact absurd h (by simp [PyField.get?])
  | val v =>
    rw [hf] at h
    simp [PyField.get?] at h
    simp [PyField.get, h]

theorem catYStep_mem (inc : Bool)
    (acc : List RawFormat × List RawFormat × List RawFormat × List RawFormat)
    (fmt f : RawFormat) :
    (f ∈ (catYStep inc acc fmt).1 →
        f ∈ acc.1 ∨ (f = fmt ∧ is_hls_format f = .ok false)) ∧
      (f ∈ (catYStep inc acc fmt).2.1 →
        f ∈ acc.2.1 ∨ (f = fmt ∧ is_hls_format f = .ok false)) ∧
      (f ∈ (catYStep inc acc fmt).2.2.1 →
        f ∈ acc.2.2.1 ∨ (f = fmt ∧ is_hls_format f = .ok false)) ∧
      (f ∈ (catYStep inc acc fmt).2.2.2 → f ∈ acc.2.2.2 ∨ f = fmt) := by
  obtain ⟨a1, a2, a3, a4⟩ := acc
  cases hu : fmt.url.get? with
  | none =>
    refine ⟨?_, ?_, ?_, ?_⟩ <;> intro h <;>
      exact Or.inl (by simpa [catYStep, hu] using h)
  | some u =>
    by_cases hue : u = ""
    · subst hue
      refine ⟨?_, ?_, ?_, ?_⟩ <;> intro h <;>
        exact Or.inl (by simpa [catYStep, hu] using h)
    · have hget : fmt.url.get "" = some u := url_get_of_get? fmt u hu
      by_cases hhls : is_hls_core u (fmt.protocol.get "") = true
      · cases inc with
        | false =>
          refine ⟨?_, ?_, ?_, ?_⟩ <;> intro h <;>
            exact Or.inl (by simpa [catYStep, hu, hue, hhls] using h)
        | true =>
          refine ⟨?_, ?_, ?_, ?_⟩
          · intro h; exact Or.inl (by simpa [catYStep, hu, hue, hhls] using h)
          · intro h; exact Or.inl (by simpa [catYStep, hu, hue, hhls] using h)
          · intro h; exact Or.inl (by simpa [catYStep, hu, hue, hhls] using h)
          · intro h
            have h' : f ∈ a4 ++ [fmt] := by simpa [catYStep, hu, hue, hhls] using h
            rcases List.mem_append.mp h' with ha | ha
            · exact Or.inl ha
            · exact Or.inr (by simpa using ha)
      · have hok : is_hls_format fmt = .ok false := by
          rw [is_hls_format, hget]
          simpa using hhls
        by_cases h2 : fmt.vcodec.get "none" = some "none" ∧ fmt.acodec.get "none" ≠ some "none"
        · refine ⟨?_, ?_, ?_, ?_⟩
          · intro h; exact Or.inl (by simpa [catYStep, hu, hue, hhls, h2] using h)
          · intro h; exact Or.inl (by simpa [catYStep, hu, hue, hhls, h2] using h)
          · intro h
            have h' : f ∈ a3 ++ [fmt] := by simpa [catYStep, hu, hue, hhls, h2] using h
            rcases List.mem_append.mp h' with ha | ha
            · exact Or.inl ha
            · have hfe : f = fmt := by simpa using ha
              exact Or.inr ⟨hfe, hfe ▸ hok⟩
          · intro h; exact Or.inl (by simpa [catYStep, hu, hue, hhls, h2] using h)
        · by_cases h3 : is_progressive_format fmt = true
          · refine ⟨?_, ?_, ?_, ?_⟩
            · intro h
              have h' : f ∈ a1 ++ [fmt] := by simpa [catYStep, hu, hue, hhls, h2, h3] using h
              rcases List.mem_append.mp h' with ha | ha
              · exact Or.inl ha
              · have hfe : f = fmt := by simpa using ha
                exact Or.inr ⟨hfe, hfe ▸ hok⟩
            · intro h; exact Or.inl (by simpa [catYStep, hu, hue, hhls, h2, h3] using h)
            · intro h; exact Or.inl (by simpa [catYStep, hu, hue, hhls, h2, h3] using h)
            · intro h; exact Or.inl (by simpa [catYStep, hu, hue, hhls, h2, h3] using h)
          · by_cases h4 : fmt.vcodec.get "none" = some "none"
            · have hB : fmt.acodec.get "none" = some "none" := by
                by_contra hB0
                exact h2 ⟨h4, hB0⟩
              refine ⟨?_, ?_, ?_, ?_⟩ <;> intro h <;>
                exact Or.inl (by simpa [catYStep, hu, hue, hhls, h3, h4, hB] using h)
            · refine ⟨?_, ?_, ?_, ?_⟩
              · intro h; exact Or.inl (by simpa [catYStep, hu, hue, hhls, h2, h3, h4] using h)
              · intro h
                have h' : f ∈ a2 ++ [fmt] := by
                  simpa [catYStep, hu, hue, hhls, h2, h3, h4] using h
                rcases List.mem_append.mp h' with ha | ha
                · exact Or.inl ha
                · have hfe : f = fmt := by simpa using ha
                  exact Or.inr ⟨hfe, hfe ▸ hok⟩
              · intro h; exact Or.inl (by simpa [catYStep, hu, hue, hhls, h2, h3, h4] using h)
              · intro h; exact Or.inl (by simpa [catYStep, hu, hue, hhls, h2, h3, h4] using h)

theorem categorizeYT_mem (inc : Bool) :
    ∀ (fmts : List RawFormat)
      (acc : List RawFormat × List RawFormat × List RawFormat × List RawFormat)
      (f : RawFormat),
      (f ∈ (fmts.foldl (catYStep inc) acc).1 →
          f ∈ acc.1 ∨ (f ∈ fmts ∧ is_hls_format f = .ok false)) ∧
        (f ∈ (fmts.foldl (catYStep inc) acc).2.1 →
          f ∈ acc.2.1 ∨ (f ∈ fmts ∧ is_hls_format f = .ok false)) ∧
        (f ∈ (fmts.foldl (catYStep inc) acc).2.2.1 →
          f ∈ acc.2.2.1 ∨ (f ∈ fmts ∧ is_hls_format f = .ok false)) ∧
        (f ∈ (fmts.foldl (catYStep inc) acc).2.2.2 → f ∈ acc.2.2.2 ∨ f ∈ fmts) := by
  intro fmts
  induction fmts with
  | nil => intro acc f; simp
  | cons x xs ih =>
    intro acc f
    rw [List.foldl_cons]
    refine ⟨?_, ?_, ?_, ?_⟩
    · intro h
      rcases (ih (catYStep inc acc x) f).1 h with h1 | h1
      · rcases (catYStep_mem inc acc x f).1 h1 with h2 | h2
        · exact Or.inl h2
        · exact Or.inr ⟨by simp [h2.1], h2.2⟩
      · exact Or.inr ⟨by simp [h1.1], h1.2⟩
    · intro h
      rcases (ih (catYStep inc acc x) f).2.1 h with h1 | h1
      · rcases (catYStep_mem inc acc x f).2.1 h1 with h2 | h2
        · exact Or.inl h2
        · exact Or.inr ⟨by simp [h2.1], h2.2⟩
      · exact Or.inr ⟨by simp [h1.1], h1.2⟩
    · intro h
      rcases (ih (catYStep inc acc x) f).2.2.1 h with h1 | h1
      · rcases (catYStep_mem inc acc x f).2.2.1 h1 with h2 | h2
        · exact Or.inl h2
        · exact Or.inr ⟨by simp [h2.1], h2.2⟩
      · exact Or.inr ⟨by simp [h1.1], h1.2⟩
    · intro h
      rcases (ih (catYStep inc acc x) f).2.2.2 h with h1 | h1
      · rcases (catYStep_mem inc acc x f).2.2.2 h1 with h2 | h2
        · exact Or.inl h2
        · exact Or.inr (by simp [h2])
      · exact Or.inr (by simp [h1])

theorem progLoop_inv {P : VSource → Prop} (maxH : Int) (targets : List Int) :
    ∀ (ps : List (RawFormat × Int)) (seen : List Int) (out : List VSource),
      (∀ p ∈ ps, P (buildSourceYT p.1 true) ∧ (buildSourceYT p.1 true).hgt = some p.2) →
      (∀ s ∈ out, P s ∧ ∃ hh ∈ seen, s.hgt = some hh) →
      (out.map VSource.hgt).Nodup →
      (∀ s ∈ (progLoop maxH targets ps seen out).2,
          P s ∧ ∃ hh ∈ (progLoop maxH targets ps seen out).1, s.hgt = some hh) ∧
        ((progLoop maxH targets ps seen out).2.map VSource.hgt).Nodup := by
  intro ps
  induction ps with
  | nil => intro seen out _ hout hnd; exact ⟨hout, hnd⟩
  | cons p rest ih =>
    intro seen out hps hout hnd
    obtain ⟨fmt, h⟩ := p
    have hp0 := hps (fmt, h) (by simp)
    unfold progLoop
    by_cases h1 : h > maxH
    · rw [if_pos h1]
      exact ih seen out (fun q hq => hps q (by simp [hq])) hout hnd
    · rw [if_neg h1]
      by_cases h2 : h ∈ seen
      · rw [if_pos h2]
        exact ih seen out (fun q hq => hps q (by simp [hq])) hout hnd
      · rw [if_neg h2]
        by_cases h3 : (targets.any (fun t => tolOk h t (mkRat 1 10))) = true ∨ h ≤ maxH
        · rw [if_pos h3]
          apply ih (seen ++ [h]) (out ++ [buildSourceYT fmt true])
          · exact fun q hq => hps q (by simp [hq])
          · intro s hs
            rcases List.mem_append.mp hs with hsl | hsl
            · obtain ⟨hP, hh, hhm, hhgt⟩ := hout s hsl
              exact ⟨hP, hh, by simp [hhm], hhgt⟩
            · simp at hsl
              subst hsl
              exact ⟨hp0.1, h, by simp, hp0.2⟩
          · simp only [List.map_append, List.map_cons, List.map_nil]
            apply nodup_append_singleton _ _ hnd
            intro hin
            rcases List.mem_map.mp hin with ⟨s, hsmem, hshgt⟩
            obtain ⟨_, hh, hhm, hhgt⟩ := hout s hsmem
            rw [hp0.2] at hshgt
            rw [hhgt] at hshgt
            have : hh = h := by simpa using hshgt
            exact h2 (this ▸ hhm)
        · rw [if_neg h3]
          exact ih seen out (fun q hq => hps q (by simp [hq])) hout hnd

theorem seen_sub_progLoop (maxH : Int) (targets : List Int) :
    ∀ (ps : List (RawFormat × Int)) (seen : List Int) (out : List VSource),
      ∀ x ∈ seen, x ∈ (progLoop maxH targets ps seen out).1 := by
  intro ps
  induction ps with
  | nil => intro seen out x hx; simpa [progLoop] using hx
  | cons p rest ih =>
    intro seen out x hx
    obtain ⟨fmt, h⟩ := p
    unfold progLoop
    by_cases h1 : h > maxH
    · rw [if_pos h1]; exact ih seen out x hx
    · rw [if_neg h1]
      by_cases h2 : h ∈ seen
      · rw [if_pos h2]; exact ih seen out x hx
      · rw [if_neg h2]
        by_cases h3 : (targets.any (fun t => tolOk h t (mkRat 1 10))) = true ∨ h ≤ maxH
        · rw [if_pos h3]
          exact ih (seen ++ [h]) _ x (by simp [hx])
        · rw [if_neg h3]; exact ih seen out x hx

theorem dashLoop_inv {P : VSource → Prop} (targets : List Int) :
    ∀ (ps : List (RawFormat × Int)) (seen : List Int) (out : List VSource),
      (∀ p ∈ ps, P (buildSourceYT p.1 false) ∧ (buildSourceYT p.1 false).hgt = some p.2) →
      (∀ s ∈ out, P s ∧ ∃ hh ∈ seen, s.hgt = some hh) →
      (out.map VSource.hgt).Nodup →
      (∀ s ∈ (dashLoop targets ps seen out).2,
          P s ∧ ∃ hh ∈ (dashLoop targets ps seen out).1, s.hgt = some hh) ∧
        ((dashLoop targets ps seen out).2.map VSource.hgt).Nodup := by
  intro ps
  induction ps with
  | nil => intro seen out _ hout hnd; exact ⟨hout, hnd⟩
  | cons p rest ih =>
    intro seen out hps hout hnd
    obtain ⟨fmt, h⟩ := p
    have hp0 := hps (fmt, h) (by simp)
    unfold dashLoop
    by_cases h2 : h ∈ seen
    · rw [if_pos h2]
      exact ih seen out (fun q hq => hps q (by simp [hq])) hout hnd
    · rw [if_neg h2]
      cases hfind : targets.find? (fun t => tolOk h t (mkRat 1 10)) with
      | none => exact ih seen out (fun q hq => hps q (by simp [hq])) hout hnd
      | some t0 =>
        apply ih (seen ++ [h]) (out ++ [buildSourceYT fmt false])
        · exact fun q hq => hps q (by simp [hq])
        · intro s hs
          rcases List.mem_append.mp hs with hsl | hsl
          · obtain ⟨hP, hh, hhm, hhgt⟩ := hout s hsl
            exact ⟨hP, hh, by simp [hhm], hhgt⟩
          · simp at hsl
            subst hsl
            exact ⟨hp0.1, h, by simp, hp0.2⟩
        · simp only [List.map_append, List.map_cons, List.map_nil]
          apply nodup_append_singleton _ _ hnd
          intro hin
          rcases List.mem_map.mp hin with ⟨s, hsmem, hshgt⟩
          obtain ⟨_, hh, hhm, hhgt⟩ := hout s hsmem
          rw [hp0.2] at hshgt
          rw [hhgt] at hshgt
          have : hh = h := by simpa using hshgt
          exact h2 (this ▸ hhm)

theorem hlsLoop_inv {P : VSource → Prop} (targets : List Int) :
    ∀ (ps : List (RawFormat × Int)) (seen : List Int) (out : List VSource),
      (∀ p ∈ ps, P (buildHlsSource p.1) ∧ (buildHlsSource p.1).hgt = some p.2) →
      (∀ s ∈ out, P s ∧ ∃ hh ∈ seen, s.hgt = some hh) →
      (out.map VSource.hgt).Nodup →
      (∀ s ∈ (hlsLoop targets ps seen out).2,
          P s ∧ ∃ hh ∈ (hlsLoop targets ps seen out).1, s.hgt = some hh) ∧
        ((hlsLoop targets ps seen out).2.map VSource.hgt).Nodup := by
  intro ps
  induction ps with
  | nil => intro seen out _ hout hnd; exact ⟨hout, hnd⟩
  | cons p rest ih =>
    intro seen out hps hout hnd
    obtain ⟨fmt, h⟩ := p
    have hp0 := hps (fmt, h) (by simp)
    unfold hlsLoop
    by_cases h2 : h ∈ seen
    · rw [if_pos h2]
      exact ih seen out (fun q hq => hps q (by simp [hq])) hout hnd
    · rw [if_neg h2]
      cases hfind : targets.find? (fun t => tolOk h t (mkRat 1 10)) with
      | none => exact ih seen out (fun q hq => hps q (by simp [hq])) hout hnd
      | some t0 =>
        apply ih (seen ++ [h]) (out ++ [buildHlsSource fmt])
        · exact fun q hq => hps q (by simp [hq])
        · intro s hs
          rcases List.mem_append.mp hs with hsl | hsl
          · obtain ⟨hP, hh, hhm, hhgt⟩ := hout s hsl
            exact ⟨hP, hh, by simp [hhm], hhgt⟩
          · simp at hsl
            subst hsl
            exact ⟨hp0.1, h, by simp, hp0.2⟩
        · simp only [List.map_append, List.map_cons, List.map_nil]
          apply nodup_append_singleton _ _ hnd
          intro hin
          rcases List.mem_map.mp hin with ⟨s, hsmem, hshgt⟩
          obtain ⟨_, hh, hhm, hhgt⟩ := hout s hsmem
          rw [hp0.2] at hshgt
          rw [hhgt] at hshgt
          have : hh = h := by simpa using hshgt
          exact h2 (this ▸ hhm)

theorem pairHeights_mem (fmts : List RawFormat) (ps : List (RawFormat × Int))
    (h : pairHeights fmts = .ok ps) :
    ∀ q ∈ ps, q.1 ∈ fmts ∧ q.1.height.get 0 = some q.2 := by
  intro q hq
  obtain ⟨qf, qh⟩ := q
  obtain ⟨f, hf, hfq⟩ := mapE_mem _ fmts ps h (qf, qh) hq
  cases hh : f.height.get 0 with
  | none => rw [hh] at hfq; exact absurd hfq (by simp)
  | some h0 =>
    rw [hh] at hfq
    simp only [Except.ok.injEq, Prod.mk.injEq] at hfq
    obtain ⟨h1, h2⟩ := hfq
    subst h1
    subst h2
    exact ⟨hf, hh⟩

theorem process_youtube_formats_inv (formats : List RawFormat) (maxH : Int)
    (th : List Int) (cp : List (String × Int)) (inc : Bool)
    (vs : List VSource) (as0 : List ASource) (hs : List VSource)
    (h : process_youtube_formats formats maxH th cp inc = .ok (vs, as0, hs)) :
    (vs.map VSource.hgt).Nodup ∧
      (∀ s ∈ vs, ∃ f ∈ formats, s = buildSourceYT f true ∨ s = buildSourceYT f false) ∧
      (∀ s ∈ hs, ∃ f ∈ formats, s = buildHlsSource f) := by
  replace h :
      (match pairHeights (categorizeYT inc formats).1 with
        | .error e => (.error e : Except String (List VSource × List ASource × List VSource))
        | .ok progP =>
          match pairHeights (categorizeYT inc formats).2.1 with
          | .error e => .error e
          | .ok dashP =>
            match process_audio_formats
                ((categorizeYT inc formats).2.2.1.map buildAudioSource) 128 with
            | .error e => .error e
            | .ok audio_sources =>
              if inc ∧ (categorizeYT inc formats).2.2.2 ≠ [] then
                match pairHeights (categorizeYT inc formats).2.2.2 with
                | .error e => .error e
                | .ok hlsP =>
                  .ok ((dashLoop th (sortBy (ytLe cp) dashP)
                      (progLoop maxH th (sortBy (ytLe cp) progP) [] []).1
                      (progLoop maxH th (sortBy (ytLe cp) progP) [] []).2).2,
                    audio_sources,
                    (hlsLoop th (sortBy hlsLe hlsP) [] []).2)
              else
                .ok ((dashLoop th (sortBy (ytLe cp) dashP)
                    (progLoop maxH th (sortBy (ytLe cp) progP) [] []).1
                    (progLoop maxH th (sortBy (ytLe cp) progP) [] []).2).2,
                  audio_sources, [])) = .ok (vs, as0, hs) := h
  cases hp1 : pairHeights (categorizeYT inc formats).1 with
  | error e =>
    rw [hp1] at h
    exact absurd h (by simp)
  | ok progP =>
  rw [hp1] at h
  cases hp2 : pairHeights (categorizeYT inc formats).2.1 with
  | error e =>
    rw [hp2] at h
    exact absurd h (by simp)
  | ok dashP =>
  rw [hp2] at h
  cases hpa : process_audio_formats ((categorizeYT inc formats).2.2.1.map buildAudioSource) 128 with
  | error e =>
    rw [hpa] at h
    exact absurd h (by simp)
  | ok auds =>
  rw [hpa] at h
  replace h :
      (if inc ∧ (categorizeYT inc formats).2.2.2 ≠ [] then
        match pairHeights (categorizeYT inc formats).2.2.2 with
        | .error e => (.error e : Except String (List VSource × List ASource × List VSource))
        | .ok hlsP =>
          .ok ((dashLoop th (sortBy (ytLe cp) dashP)
              (progLoop maxH th (sortBy (ytLe cp) progP) [] []).1
              (progLoop maxH th (sortBy (ytLe cp) progP) [] []).2).2,
            auds,
            (hlsLoop th (sortBy hlsLe hlsP) [] []).2)
      else
        .ok ((dashLoop th (sortBy (ytLe cp) dashP)
            (progLoop maxH th (sortBy (ytLe cp) progP) [] []).1
            (progLoop maxH th (sortBy (ytLe cp) progP) [] []).2).2,
          auds, [])) = .ok (vs, as0, hs) := h
  have hprogmem := pairHeights_mem _ _ hp1
  have hdashmem := pairHeights_mem _ _ hp2
  have hprogpre : ∀ p ∈ sortBy (ytLe cp) progP,
      (∃ f ∈ formats, buildSourceYT p.1 true = buildSourceYT f true ∨
          buildSourceYT p.1 true = buildSourceYT f false) ∧
        (buildSourceYT p.1 true).hgt = some p.2 := by
    intro p hp
    have hp' := (mem_sortBy _ p progP).mp hp
    obtain ⟨hmem, hhgt⟩ := hprogmem p hp'
    have hfor : p.1 ∈ formats := by
      rcases (categorizeYT_mem inc formats ([], [], [], []) p.1).1 hmem with h1 | h1
      · simp at h1
      · exact h1.1
    exact ⟨⟨p.1, hfor, Or.inl rfl⟩, by rw [buildSourceYT_hgt]; exact hhgt⟩
  have hdashpre : ∀ p ∈ sortBy (ytLe cp) dashP,
      (∃ f ∈ formats, buildSourceYT p.1 false = buildSourceYT f true ∨
          buildSourceYT p.1 false = buildSourceYT f false) ∧
        (buildSourceYT p.1 false).hgt = some p.2 := by
    intro p hp
    have hp' := (mem_sortBy _ p dashP).mp hp
    obtain ⟨hmem, hhgt⟩ := hdashmem p hp'
    have hfor : p.1 ∈ formats := by
      rcases (categorizeYT_mem inc formats ([], [], [], []) p.1).2.1 hmem with h1 | h1
      · simp at h1
      · exact h1.1
    exact ⟨⟨p.1, hfor, Or.inr rfl⟩, by rw [buildSourceYT_hgt]; exact hhgt⟩
  have hprog := progLoop_inv (P := fun s =>
      ∃ f ∈ formats, s = buildSourceYT f true ∨ s = buildSourceYT f false)
    maxH th (sortBy (ytLe cp) progP) [] [] hprogpre (by simp) (by simp)
  have hdash := dashLoop_inv (P := fun s =>
      ∃ f ∈ formats, s = buildSourceYT f true ∨ s = buildSourceYT f false)
    th (sortBy (ytLe cp) dashP)
    (progLoop maxH th (sortBy (ytLe cp) progP) [] []).1
    (progLoop maxH th (sortBy (ytLe cp) progP) [] []).2
    hdashpre hprog.1 hprog.2
  by_cases hif : inc ∧ (categorizeYT inc formats).2.2.2 ≠ []
  · rw [if_pos hif] at h
    cases hp3 : pairHeights (categorizeYT inc formats).2.2.2 with
    | error e =>
      rw [hp3] at h
      exact absurd h (by simp)
    | ok hlsP =>
    rw [hp3] at h
    simp only [Except.ok.injEq, Prod.mk.injEq] at h
    obtain ⟨h1, _, h3⟩ := h
    have hhlsmem := pairHeights_mem _ _ hp3
    have hhlspre : ∀ p ∈ sortBy hlsLe hlsP,
        (∃ f ∈ formats, buildHlsSource p.1 = buildHlsSource f) ∧
          (buildHlsSource p.1).hgt = some p.2 := by
      intro p hp
      have hp' := (mem_sortBy _ p hlsP).mp hp
      obtain ⟨hmem, hhgt⟩ := hhlsmem p hp'
      have hfor : p.1 ∈ formats := by
        rcases (categorizeYT_mem inc formats ([], [], [], []) p.1).2.2.2 hmem with h1 | h1
        · simp at h1
        · exact h1
      exact ⟨⟨p.1, hfor, rfl⟩, by rw [buildHlsSource_hgt]; exact hhgt⟩
    have hhls := hlsLoop_inv (P := fun s => ∃ f ∈ formats, s = buildHlsSource f)
      th (sortBy hlsLe hlsP) [] [] hhlspre (by simp) (by simp)
    subst h1
    subst h3
    exact ⟨hdash.2, fun s hsm => (hdash.1 s hsm).1, fun s hsm => (hhls.1 s hsm).1⟩
  · rw [if_neg hif] at h
    simp only [Except.ok.injEq, Prod.mk.injEq] at h
    obtain ⟨h1, _, h3⟩ := h
    subst h1
    subst h3
    exact ⟨hdash.2, fun s hsm => (hdash.1 s hsm).1, by simp⟩

theorem effBitrateE_of_some (s : ASource) (v : Int) (h : effBitrate? s = some v) :
    effBitrateE s = .ok v := by
  unfold effBitrate? at h
  unfold effBitrateE
  cases hbi : s.bitrateInternal with
  | val w => rw [hbi] at h; simp at h; simp [h]
  | null => rw [hbi] at h; simp at h
  | absent =>
    rw [hbi] at h
    cases hb : s.bitrate with
    | val w => rw [hb] at h; simp at h; simp [h]
    | null => rw [hb] at h; simp at h
    | absent => rw [hb] at h; simp at h; simp [h]

/-- First element maximizing a key (stable descending sort head). -/
def firstMaxBy (k : ASource → Int) (xs : List ASource) : Option ASource :=
  firstMinBy (fun s => -(k s)) xs

/-- The audio selection algorithm as the code actually implements it
(amended claim C6): only AAC and Opus are recognized groups, in that
order, each contributing its earliest member of minimal
|bitrate - target|; every other codec is "other", and only when neither
AAC nor Opus is present does the earliest highest-bitrate "other"
candidate become the sole result. -/
def audioSelectSpec (sources : List ASource) (target : Int) : List ASource :=
  if sources.isEmpty then []
  else
    let aac := sources.filter (fun s => s.codec == some "AAC")
    let opus := sources.filter (fun s => s.codec == some "Opus")
    let other := sources.filter (fun s => !(s.codec == some "AAC" || s.codec == some "Opus"))
    let dist := fun s => |(effBitrate? s).getD 0 - target|
    let picks := ((firstMinBy dist aac).toList ++ (firstMinBy dist opus).toList).map cleanA
    if picks.isEmpty ∧ other ≠ [] then
      ((firstMaxBy (fun s => (effBitrate? s).getD 0) other).toList).map cleanA
    else picks

theorem firstMinBy_mem {α : Type} (k : α → Int) (xs : List α) (a : α)
    (h : firstMinBy k xs = some a) : a ∈ xs := by
  cases xs with
  | nil => simp [firstMinBy] at h
  | cons x xs0 =>
    have ha : firstMinByGo k x xs0 = a := by simpa [firstMinBy] using h
    rcases firstMinByGo_mem k xs0 x with h1 | h1
    · rw [ha] at h1; simp [h1.symm]
    · rw [ha] at h1; simp [h1]

theorem firstMinBy_min {α : Type} (k : α → Int) (xs : List α) (a : α)
    (h : firstMinBy k xs = some a) : ∀ c ∈ xs, k a ≤ k c := by
  cases xs with
  | nil => simp [firstMinBy] at h
  | cons x xs0 =>
    have ha : firstMinByGo k x xs0 = a := by simpa [firstMinBy] using h
    obtain ⟨h1, h2⟩ := firstMinByGo_min k xs0 x
    rw [ha] at h1 h2
    intro c hc
    rcases List.mem_cons.mp hc with hc1 | hc1
    · subst hc1; exact h1
    · exact h2 c hc1

theorem firstMinByGo_map_pair {α : Type} (m : Int → Int) (k : α → Int) :
    ∀ (xs : List α) (b : α),
      firstMinByGo (fun p : α × Int => m p.2) (b, k b) (xs.map (fun s => (s, k s))) =
        (firstMinByGo (fun s => m (k s)) b xs, k (firstMinByGo (fun s => m (k s)) b xs)) := by
  intro xs
  induction xs with
  | nil => intro b; rfl
  | cons x xs ih =>
    intro b
    simp only [List.map_cons, firstMinByGo]
    by_cases hlt : m (k x) < m (k b)
    · rw [if_pos (by simpa using hlt), if_pos hlt]
      exact ih x
    · rw [if_neg (by simpa using hlt), if_neg hlt]
      exact ih b

theorem firstMinBy_map_pair {α : Type} (m : Int → Int) (k : α → Int) (xs : List α) :
    firstMinBy (fun p : α × Int => m p.2) (xs.map (fun s => (s, k s))) =
      (firstMinBy (fun s => m (k s)) xs).map (fun s => (s, k s)) := by
  cases xs with
  | nil => rfl
  | cons x xs0 =>
    simp only [List.map_cons, firstMinBy, Option.map_some]
    rw [firstMinByGo_map_pair]
    rfl

theorem firstMinBy_map_pair_id {α : Type} (k : α → Int) (xs : List α) :
    firstMinBy (fun p : α × Int => p.2) (xs.map (fun s => (s, k s))) =
      (firstMinBy k xs).map (fun s => (s, k s)) := by
  have := firstMinBy_map_pair (fun x => x) k xs
  simpa using this

theorem sortBy_eq_nil_iff {α : Type} (le : α → α → Bool) (xs : List α) :
    sortBy le xs = [] ↔ xs = [] := by
  constructor
  · intro h
    cases xs with
    | nil => rfl
    | cons x xs0 =>
      have : x ∈ sortBy le (x :: xs0) := (mem_sortBy le x (x :: xs0)).mpr (by simp)
      rw [h] at this
      simp at this
  · intro h
    rw [h]
    rfl

theorem pick_best_eq (sources : List ASource) (target : Int)
    (hdef : ∀ s ∈ sources, (effBitrate? s).isSome) :
    pick_best_by_bitrate sources target =
      .ok (firstMinBy (fun s => |(effBitrate? s).getD 0 - target|) sources) := by
  unfold pick_best_by_bitrate
  by_cases hemp : sources.isEmpty
  · rw [if_pos hemp]
    have : sources = [] := by simpa using hemp
    subst this
    rfl
  · rw [if_neg hemp]
    have hmap : mapE (fun s => (effBitrateE s).map (fun v => (s, |v - target|))) sources =
        .ok (sources.map (fun s => (s, |(effBitrate? s).getD 0 - target|))) := by
      apply mapE_eq_ok
      intro s hsm
      have hd := hdef s hsm
      cases he : effBitrate? s with
      | none => rw [he] at hd; simp at hd
      | some v =>
        rw [effBitrateE_of_some s v he]
        rfl
    rw [hmap]
    simp only [Except.ok.injEq]
    rw [sortBy_head?_firstMinBy (fun p : ASource × Int => p.2)
      (sources.map (fun s => (s, |(effBitrate? s).getD 0 - target|)))]
    rw [firstMinBy_map_pair_id]
    rw [Option.map_map]
    generalize firstMinBy (fun s => |(effBitrate? s).getD 0 - target|) sources = o
    cases o <;> rfl

theorem cleanA_codec (s : ASource) : (cleanA s).codec = s.codec := rfl

theorem cleanA_eq_self (s : ASource) (h : s.bitrateInternal = .absent) : cleanA s = s := by
  cases s
  simp only [cleanA] at *
  simp_all

theorem firstMinBy_map_pair_neg {α : Type} (k : α → Int) (xs : List α) :
    firstMinBy (fun p : α × Int => -p.2) (xs.map (fun s => (s, k s))) =
      (firstMinBy (fun s => -(k s)) xs).map (fun s => (s, k s)) := by
  have := firstMinBy_map_pair (fun x => -x) k xs
  simpa using this

theorem process_audio_formats_eq (sources : List ASource) (target : Int)
    (hdef : ∀ s ∈ sources, (effBitrate? s).isSome)
    (hne : ∀ s ∈ sources, s.isEmptyDict = false) :
    process_audio_formats sources target = .ok (audioSelectSpec sources target) := by
  by_cases hemp : sources.isEmpty
  · unfold process_audio_formats audioSelectSpec
    rw [if_pos hemp, if_pos hemp]
  · have hdefA : ∀ s ∈ sources.filter (fun s => s.codec == some "AAC"),
        (effBitrate? s).isSome := fun s hs => hdef s (List.mem_of_mem_filter hs)
    have hdefO : ∀ s ∈ sources.filter (fun s => s.codec == some "Opus"),
        (effBitrate? s).isSome := fun s hs => hdef s (List.mem_of_mem_filter hs)
    have hpa := pick_best_eq _ target hdefA
    have hpo := pick_best_eq _ target hdefO
    unfold process_audio_formats audioSelectSpec
    dsimp only
    rw [if_neg hemp, if_neg hemp, hpa, hpo]
    cases hFA : firstMinBy (fun s => |(effBitrate? s).getD 0 - target|)
        (sources.filter (fun s => s.codec == some "AAC")) with
    | some sA =>
      have hememA : sA.isEmptyDict = false :=
        hne sA (List.mem_of_mem_filter (firstMinBy_mem _ _ _ hFA))
      cases hFO : firstMinBy (fun s => |(effBitrate? s).getD 0 - target|)
          (sources.filter (fun s => s.codec == some "Opus")) with
      | some sO =>
        have hememO : sO.isEmptyDict = false :=
          hne sO (List.mem_of_mem_filter (firstMinBy_mem _ _ _ hFO))
        simp only [hememA, hememO, Bool.false_eq_true, if_false]
        rw [if_neg (by simp)]
        rw [if_neg (by simp)]
        simp
      | none =>
        simp only [hememA, Bool.false_eq_true, if_false]
        rw [if_neg (by simp)]
        rw [if_neg (by simp)]
        simp
    | none =>
      cases hFO : firstMinBy (fun s => |(effBitrate? s).getD 0 - target|)
          (sources.filter (fun s => s.codec == some "Opus")) with
      | some sO =>
        have hememO : sO.isEmptyDict = false :=
          hne sO (List.mem_of_mem_filter (firstMinBy_mem _ _ _ hFO))
        simp only [hememO, Bool.false_eq_true, if_false]
        rw [if_neg (by simp)]
        rw [if_neg (by simp)]
        simp
      | none =>
        dsimp only
        by_cases hoth : sources.filter
            (fun s => !(s.codec == some "AAC" || s.codec == some "Opus")) = []
        · rw [if_neg (by simpa using hoth)]
          rw [if_neg (by simpa using hoth)]
          simp
        · have hdefOth : ∀ s ∈ sources.filter
              (fun s => !(s.codec == some "AAC" || s.codec == some "Opus")),
              (effBitrate? s).isSome := fun s hs => hdef s (List.mem_of_mem_filter hs)
          rw [if_pos (by simpa using hoth)]
          rw [if_neg (fun hcon => by
            obtain ⟨s, hsm, hsn⟩ := List.any_eq_true.mp hcon.2
            have hd := hdefOth s hsm
            simp only [Option.isNone_iff_eq_none] at hsn
            rw [hsn] at hd
            simp at hd)]
          rw [if_pos (by simpa using hoth)]
          have hcomp : (fun (a b : ASource × Int) => decide (b.2 ≤ a.2)) =
              (fun (a b : ASource × Int) =>
                decide ((fun p : ASource × Int => -p.2) a ≤ (fun p : ASource × Int => -p.2) b)) := by
            funext a b
            rw [decide_eq_decide]
            constructor
            · intro hab
              simpa using neg_le_neg hab
            · intro hab
              simpa using neg_le_neg hab
          rw [hcomp]
          cases hs : sortBy
              (fun a b =>
                decide ((fun p : ASource × Int => -p.2) a ≤ (fun p : ASource × Int => -p.2) b))
              ((sources.filter
                  (fun s => !(s.codec == some "AAC" || s.codec == some "Opus"))).map
                (fun s => (s, (effBitrate? s).getD 0))) with
          | nil =>
            exfalso
            have hnil := (sortBy_eq_nil_iff _ _).mp hs
            have : sources.filter
                (fun s => !(s.codec == some "AAC" || s.codec == some "Opus")) = [] := by
              simpa using hnil
            exact hoth this
          | cons p ps =>
            have hhead : some p = firstMinBy (fun p : ASource × Int => -p.2)
                ((sources.filter
                    (fun s => !(s.codec == some "AAC" || s.codec == some "Opus"))).map
                  (fun s => (s, (effBitrate? s).getD 0))) := by
              rw [← sortBy_head?_firstMinBy (fun p : ASource × Int => -p.2)]
              rw [hs]
              rfl
            rw [firstMinBy_map_pair_neg] at hhead
            cases hFB : firstMinBy (fun s => -((effBitrate? s).getD 0))
                (sources.filter (fun s => !(s.codec == some "AAC" || s.codec == some "Opus"))) with
            | none =>
              rw [hFB] at hhead
              exact Option.noConfusion hhead
            | some s0 =>
              rw [hFB] at hhead
              have hp1 : p.1 = s0 := congrArg Prod.fst (Option.some.inj hhead)
              dsimp only
              rw [hp1]
              simp only [firstMaxBy]
              rw [hFB]
              rfl

theorem findBestAux_ok (tol : ℚ) (t : Int) :
    ∀ (keys : List (Option Int)) (best : Option Int),
      (∀ k ∈ keys, k.isSome) → ∃ r, findBestAux tol t best keys = .ok r := by
  intro keys
  induction keys with
  | nil => intro best _; exact ⟨best, rfl⟩
  | cons k rest ih =>
    intro best hk
    cases k with
    | none => exact absurd (hk none (by simp)) (by simp)
    | some h0 =>
      unfold findBestAux
      by_cases hc : tolOk h0 t tol = true
      · rw [if_pos hc]
        cases best with
        | none => exact ih (some h0) (fun k2 hk2 => hk k2 (by simp [hk2]))
        | some b =>
          by_cases hlt : (h0 - t).natAbs < (b - t).natAbs
          · have := ih (some h0) (fun k2 hk2 => hk k2 (by simp [hk2]))
            simpa [hlt] using this
          · have := ih (some b) (fun k2 hk2 => hk k2 (by simp [hk2]))
            simpa [hlt] using this
      · rw [if_neg hc]
        exact ih best (fun k2 hk2 => hk k2 (by simp [hk2]))

theorem selectLoop_ok (tol : ℚ) :
    ∀ (ts : List Int) (bh : List (Option Int × List VSource)) (out : List VSource),
      (∀ k ∈ bh.map Prod.fst, k.isSome) → ∃ res, selectLoop tol ts bh out = .ok res := by
  intro ts
  induction ts with
  | nil => intro bh out _; exact ⟨out, rfl⟩
  | cons t ts ih =>
    intro bh out hk
    obtain ⟨r, hr⟩ := findBestAux_ok tol t (bh.map Prod.fst) none hk
    unfold selectLoop
    rw [show findBest tol t (bh.map Prod.fst) = .ok r from hr]
    cases r with
    | none => exact ih bh out hk
    | some hv =>
      show ∃ res, (if hv ≠ 0 ∧ (bhLookup bh (some hv)).getD [] ≠ [] then
          match sortBy vLe ((bhLookup bh (some hv)).getD []) with
          | [] => selectLoop tol ts bh out
          | c :: _ => selectLoop tol ts (delKey bh (some hv)) (out ++ [cleanV c])
        else selectLoop tol ts bh out) = .ok res
      by_cases hcond : hv ≠ 0 ∧ (bhLookup bh (some hv)).getD [] ≠ []
      · cases hsort : sortBy vLe ((bhLookup bh (some hv)).getD []) with
        | nil =>
          obtain ⟨res, hres⟩ := ih bh out hk
          exact ⟨res, by rw [if_pos hcond]; exact hres⟩
        | cons c cs =>
          obtain ⟨res, hres⟩ := ih (delKey bh (some hv)) (out ++ [cleanV c])
            (fun k2 hk2 => hk k2 (delKey_keys bh (some hv) k2 hk2).1)
          exact ⟨res, by rw [if_pos hcond]; exact hres⟩
      · obtain ⟨res, hres⟩ := ih bh out hk
        exact ⟨res, by rw [if_neg hcond]; exact hres⟩

theorem isSome_height_get (f : RawFormat) (h : f.height ≠ .null) :
    (f.height.get 0).isSome := by
  cases hx : f.height with
  | null => exact absurd hx h
  | absent => simp [PyField.get]
  | val v => simp [PyField.get]

theorem addBucket_keys :
    ∀ (bh : List (Option Int × List VSource)) (h : Option Int) (s : VSource),
      ∀ k ∈ (addBucket bh h s).map Prod.fst, k ∈ bh.map Prod.fst ∨ k = h := by
  intro bh
  induction bh with
  | nil =>
    intro h s k hk
    simp [addBucket] at hk
    exact Or.inr hk
  | cons q rest ih =>
    intro h s k hk
    obtain ⟨q1, q2⟩ := q
    unfold addBucket at hk
    by_cases hq : q1 = h
    · rw [if_pos (by simpa using hq)] at hk
      exact Or.inl (by simpa using hk)
    · rw [if_neg (by simpa using hq)] at hk
      simp only [List.map_cons] at hk
      rcases List.mem_cons.mp hk with h1 | h1
      · exact Or.inl (by simp [h1])
      · rcases ih h s k h1 with h2 | h2
        · exact Or.inl (by simp; exact Or.inr (by simpa using h2))
        · exact Or.inr h2

theorem buildBuckets_keys (cp : List (String × Int)) :
    ∀ (fmts : List RawFormat) (acc : List (Option Int × List VSource)),
      ∀ k ∈ (fmts.foldl
          (fun bh fmt => addBucket bh (fmt.height.get 0) (buildVideoSource cp fmt)) acc).map
        Prod.fst,
        k ∈ acc.map Prod.fst ∨ ∃ f ∈ fmts, k = f.height.get 0 := by
  intro fmts
  induction fmts with
  | nil => intro acc k hk; exact Or.inl hk
  | cons f fmts ih =>
    intro acc k hk
    rw [List.foldl_cons] at hk
    rcases ih _ k hk with h1 | h1
    · rcases addBucket_keys acc (f.height.get 0) (buildVideoSource cp f) k h1 with h2 | h2
      · exact Or.inl h2
      · exact Or.inr ⟨f, by simp, h2⟩
    · obtain ⟨f2, hf2, hk2⟩ := h1
      exact Or.inr ⟨f2, by simp [hf2], hk2⟩

theorem process_video_formats_ok (formats : List RawFormat) (th : List Int)
    (cp : List (String × Int)) (tol : ℚ)
    (hh : ∀ f ∈ formats, f.height ≠ .null) :
    ∃ r, process_video_formats formats th cp tol = .ok r := by
  have hk : ∀ k ∈ (buildBuckets cp (categorizeGeneric formats).1).map Prod.fst, k.isSome := by
    intro k hk
    rcases buildBuckets_keys cp (categorizeGeneric formats).1 [] k hk with h1 | h1
    · simp at h1
    · obtain ⟨f, hf, hkf⟩ := h1
      have hfor : f ∈ formats := by
        have := (categorizeGeneric_mem formats ([], []) f).1 hf
        simpa using this
      rw [hkf]
      exact isSome_height_get f (hh f hfor)
  obtain ⟨vsel, hvsel⟩ := selectLoop_ok tol th (buildBuckets cp (categorizeGeneric formats).1) [] hk
  refine ⟨(vsel, (categorizeGeneric formats).2.map buildAudioSource), ?_⟩
  show (match selectLoop tol th (buildBuckets cp (categorizeGeneric formats).1) [] with
    | .error e => (.error e : Except String (List VSource × List ASource))
    | .ok video_sources =>
      .ok (video_sources, (categorizeGeneric formats).2.map buildAudioSource)) = _
  rw [hvsel]

theorem pairHeights_ok (fmts : List RawFormat) (hh : ∀ f ∈ fmts, f.height ≠ .null) :
    pairHeights fmts = .ok (fmts.map (fun f => (f, (f.height.get 0).getD 0))) := by
  apply mapE_eq_ok
  intro f hf
  cases hx : f.height with
  | null => exact absurd hx (hh f hf)
  | absent => simp [PyField.get, hx]
  | val v => simp [PyField.get, hx]

theorem effBitrate_buildAudio (f : RawFormat) :
    (effBitrate? (buildAudioSource f)).isSome := by
  cases habr : f.abr.get 0 with
  | none => simp [buildAudioSource, effBitrate?, habr]
  | some a => simp [buildAudioSource, effBitrate?, habr]

theorem buildAudio_notEmpty (f : RawFormat) :
    (buildAudioSource f).isEmptyDict = false := by
  simp [buildAudioSource, ASource.isEmptyDict]

theorem audioTail_ok (other r2 : List ASource)
    (hdefOth : ∀ s ∈ other, (effBitrate? s).isSome) :
    ∃ r, (if r2.isEmpty ∧ other ≠ [] then
        if 2 ≤ other.length ∧ other.any (fun s => (effBitrate? s).isNone) then
          (.error "TypeError" : Except String (List ASource))
        else
          match sortBy (fun a b => decide (b.2 ≤ a.2))
              (other.map (fun s => (s, (effBitrate? s).getD 0))) with
          | [] => .ok r2
          | p :: _ => .ok [cleanA p.1]
      else .ok r2) = .ok r := by
  by_cases hif : r2.isEmpty = true ∧ other ≠ []
  · rw [if_pos hif]
    rw [if_neg (fun hcon => by
      obtain ⟨s, hsm, hsn⟩ := List.any_eq_true.mp hcon.2
      have hd := hdefOth s hsm
      simp only [Option.isNone_iff_eq_none] at hsn
      rw [hsn] at hd
      simp at hd)]
    cases hs : sortBy (fun a b => decide (b.2 ≤ a.2))
        (other.map (fun s => (s, (effBitrate? s).getD 0))) with
    | nil => exact ⟨r2, rfl⟩
    | cons p ps => exact ⟨[cleanA p.1], rfl⟩
  · rw [if_neg hif]
    exact ⟨r2, rfl⟩

theorem process_audio_formats_ok (sources : List ASource) (target : Int)
    (hdef : ∀ s ∈ sources, (effBitrate? s).isSome) :
    ∃ r, process_audio_formats sources target = .ok r := by
  by_cases hemp : sources.isEmpty
  · exact ⟨[], by unfold process_audio_formats; rw [if_pos hemp]⟩
  · have hpa := pick_best_eq (sources.filter (fun s => s.codec == some "AAC")) target
      (fun s hs => hdef s (List.mem_of_mem_filter hs))
    have hpo := pick_best_eq (sources.filter (fun s => s.codec == some "Opus")) target
      (fun s hs => hdef s (List.mem_of_mem_filter hs))
    unfold process_audio_formats
    rw [if_neg hemp]
    dsimp only
    rw [hpa, hpo]
    dsimp only
    exact audioTail_ok _ _ (fun s hs => hdef s (List.mem_of_mem_filter hs))

theorem process_youtube_formats_ok (formats : List RawFormat) (maxH : Int)
    (th : List Int) (cp : List (String × Int)) (inc : Bool)
    (hh : ∀ f ∈ formats, f.height ≠ .null) :
    ∃ r, process_youtube_formats formats maxH th cp inc = .ok r := by
  have hsubP : ∀ f ∈ (categorizeYT inc formats).1, f ∈ formats := by
    intro f hf
    rcases (categorizeYT_mem inc formats ([], [], [], []) f).1 hf with h1 | h1
    · simp at h1
    · exact h1.1
  have hsubD : ∀ f ∈ (categorizeYT inc formats).2.1, f ∈ formats := by
    intro f hf
    rcases (categorizeYT_mem inc formats ([], [], [], []) f).2.1 hf with h1 | h1
    · simp at h1
    · exact h1.1
  have hsubH : ∀ f ∈ (categorizeYT inc formats).2.2.2, f ∈ formats := by
    intro f hf
    rcases (categorizeYT_mem inc formats ([], [], [], []) f).2.2.2 hf with h1 | h1
    · simp at h1
    · exact h1
  have hp1 := pairHeights_ok (categorizeYT inc formats).1 (fun f hf => hh f (hsubP f hf))
  have hp2 := pairHeights_ok (categorizeYT inc formats).2.1 (fun f hf => hh f (hsubD f hf))
  have hpa := process_audio_formats_eq ((categorizeYT inc formats).2.2.1.map buildAudioSource) 128
    (by
      intro s hs
      obtain ⟨f, _, hfx⟩ := List.mem_map.mp hs
      rw [← hfx]
      exact effBitrate_buildAudio f)
    (by
      intro s hs
      obtain ⟨f, _, hfx⟩ := List.mem_map.mp hs
      rw [← hfx]
      exact buildAudio_notEmpty f)
  show ∃ r,
      (match pairHeights (categorizeYT inc formats).1 with
        | .error e => (.error e : Except String (List VSource × List ASource × List VSource))
        | .ok progP =>
          match pairHeights (categorizeYT inc formats).2.1 with
          | .error e => .error e
          | .ok dashP =>
            match process_audio_formats
                ((categorizeYT inc formats).2.2.1.map buildAudioSource) 128 with
            | .error e => .error e
            | .ok audio_sources =>
              if inc ∧ (categorizeYT inc formats).2.2.2 ≠ [] then
                match pairHeights (categorizeYT inc formats).2.2.2 with
                | .error e => .error e
                | .ok hlsP =>
                  .ok ((dashLoop th (sortBy (ytLe cp) dashP)
                      (progLoop maxH th (sortBy (ytLe cp) progP) [] []).1
                      (progLoop maxH th (sortBy (ytLe cp) progP) [] []).2).2,
                    audio_sources,
                    (hlsLoop th (sortBy hlsLe hlsP) [] []).2)
              else
                .ok ((dashLoop th (sortBy (ytLe cp) dashP)
                    (progLoop maxH th (sortBy (ytLe cp) progP) [] []).1
                    (progLoop maxH th (sortBy (ytLe cp) progP) [] []).2).2,
                  audio_sources, [])) = .ok r
  rw [hp1, hp2, hpa]
  dsimp only
  by_cases hif : inc ∧ (categorizeYT inc formats).2.2.2 ≠ []
  · have hp3 := pairHeights_ok (categorizeYT inc formats).2.2.2 (fun f hf => hh f (hsubH f hf))
    rw [if_pos hif, hp3]
    exact ⟨_, rfl⟩
  · rw [if_neg hif]
    exact ⟨_, rfl⟩

theorem tolOk_iff (h t : Int) (tol : ℚ) :
    tolOk h t tol = true ↔ |((h - t : Int) : ℚ)| ≤ (t : ℚ) * tol := by
  unfold tolOk
  rw [decide_eq_true_eq]
  have hden : (0 : ℚ) < (tol.den : ℚ) := by exact_mod_cast tol.pos
  have hmul : (t : ℚ) * tol = ((t * tol.num : Int) : ℚ) / (tol.den : ℚ) := by
    conv_lhs => rw [← Rat.num_div_den tol]
    push_cast
    ring
  rw [hmul, le_div_iff₀ hden]
  rw [show |((h - t : Int) : ℚ)| = ((((h - t).natAbs : Int)) : ℚ) by
    rw [← Int.cast_abs, Int.abs_eq_natAbs]]
  rw [show ((tol.den : ℚ)) = (((tol.den : Int)) : ℚ) by push_cast; rfl]
  rw [← Int.cast_mul, Int.cast_le]

/-- A 648p H.264 video-only test format. -/
def fmt648 : RawFormat :=
  { url := .val "http://cdn/v648", vcodec := .val "avc1.4d401f", height := .val 648 }

/-- A 647p H.264 video-only test format. -/
def fmt647 : RawFormat :=
  { url := .val "http://cdn/v647", vcodec := .val "avc1.4d401f", height := .val 647 }

/-- A 792p H.264 video-only test format. -/
def fmt792 : RawFormat :=
  { url := .val "http://cdn/v792", vcodec := .val "avc1.4d401f", height := .val 792 }

/-- An HLS-classified 720p format without audio. -/
def fmtHlsNoAudio : RawFormat :=
  { url := .val "http://cdn/index.m3u8", vcodec := .val "avc1.4d401f", acodec := .val "none",
    height := .val 720 }

/-- An HLS-classified 720p format with both codecs set. -/
def fmtHlsAv : RawFormat :=
  { url := .val "http://cdn/index.m3u8", vcodec := .val "avc1.4d401f",
    acodec := .val "mp4a.40.2", height := .val 720 }

/-- A format whose height key is bound to Python `None`. -/
def fmtNullHeight : RawFormat :=
  { url := .val "http://cdn/v", vcodec := .val "avc1.4d401f", height := .null }

/-- A format with extension `m3u8` but a non-HLS URL and protocol. -/
def fmtExtM3u8 : RawFormat :=
  { url := .val "http://cdn/video.bin", vcodec := .val "avc1.4d401f", height := .val 720,
    ext := .val "m3u8", protocol := .val "https" }

/-- A progressive (video+audio) format at a given height. -/
def mkProg (h : Int) : RawFormat :=
  { url := .val "http://cdn/prog", vcodec := .val "avc1.4d401f", acodec := .val "mp4a.40.2",
    height := .val h }

/-- A DASH video-only format at a given height. -/
def mkDash (h : Int) : RawFormat :=
  { url := .val "http://cdn/dash", vcodec := .val "avc1.4d401f", acodec := .val "none",
    height := .val h }

/-- A video-only format with a chosen url and height. -/
def mkVid (u : String) (h : Int) : RawFormat :=
  { url := .val u, vcodec := .val "avc1.4d401f", height := .val h }

/-- An MP3 audio source at 128 kbps. -/
def mp3at128 : ASource :=
  { codec := some "MP3", mime := some "audio/mp3", bitrate := .val 128,
    bitrateInternal := .val 128 }

/-- A FLAC audio source at 1000 kbps. -/
def flacAt1000 : ASource :=
  { codec := some "FLAC", mime := some "audio/flac", bitrate := .val 1000,
    bitrateInternal := .val 1000 }

/-- An AAC audio source whose bitrate key is bound to Python `None`. -/
def aacNullBitrate : ASource :=
  { codec := some "AAC", mime := some "audio/mp4", bitrate := .null }

/-- An AAC audio source with both bitrate keys absent. -/
def aacNoBitrate : ASource :=
  { codec := some "AAC", mime := some "audio/mp4" }

/-- AAC audio sources at 64, 128 and 256 kbps. -/
def aacAt64 : ASource :=
  { codec := some "AAC", mime := some "audio/mp4", bitrate := .val 64,
    bitrateInternal := .val 64 }

/-- See `aacAt64`. -/
def aacAt128 : ASource :=
  { codec := some "AAC", mime := some "audio/mp4", bitrate := .val 128,
    bitrateInternal := .val 128 }

/-- See `aacAt64`. -/
def aacAt256 : ASource :=
  { codec := some "AAC", mime := some "audio/mp4", bitrate := .val 256,
    bitrateInternal := .val 256 }

/-- Boolean-flag bridge: a source whose `needsMerge` is the negation of
`hasAudio` satisfies the flag iff. -/
theorem flag_iff_of_not (s : VSource) (h : s.needsMerge = !s.hasAudio) :
    (s.hasAudio = false ↔ s.needsMerge = true) := by
  rw [h]
  cases hb : s.hasAudio <;> simp

/-- Claim C1, counterexample: the claim as frozen also covers the HLS
list, but an HLS variant without an audio codec is emitted with
`hasAudio = false` and `needsMerge = false`, so `hasAudio == false ⇔
needsMerge == true` fails on it. -/
theorem claim_C1_counterexample :
    (process_youtube_formats [fmtHlsNoAudio] 720 DEFAULT_TARGET_HEIGHTS DEFAULT_CODEC_PRIORITY
        true).toOption.map
      (fun r => r.2.2.map (fun s => decide (s.hasAudio = false ↔ s.needsMerge = true))) =
      some [false] := by
  decide

/-- Claim C1 (amended): for every video Source emitted by the generic
pipeline or the progressive-priority pipeline, `hasAudio = false` iff
`needsMerge = true`; Sources of the HLS list instead always carry
`needsMerge = false` (with `hasAudio` mirroring the audio codec), so
the equivalence does not extend to them. -/
theorem claim_C1 :
    (∀ (formats : List RawFormat) (th : List Int) (cp : List (String × Int)) (tol : ℚ)
        (vs : List VSource) (as0 : List ASource),
        process_video_formats formats th cp tol = .ok (vs, as0) →
        ∀ s ∈ vs, (s.hasAudio = false ↔ s.needsMerge = true)) ∧
      (∀ (formats : List RawFormat) (maxH : Int) (th : List Int) (cp : List (String × Int))
          (inc : Bool) (vs : List VSource) (as0 : List ASource) (hs : List VSource),
          process_youtube_formats formats maxH th cp inc = .ok (vs, as0, hs) →
          (∀ s ∈ vs, (s.hasAudio = false ↔ s.needsMerge = true)) ∧
            ∀ s ∈ hs, s.needsMerge = false) := by
  constructor
  · intro formats th cp tol vs as0 hok s hs
    obtain ⟨f, _, hsf⟩ := (process_video_formats_inv formats th cp tol vs as0 hok).2 s hs
    exact flag_iff_of_not s (by rw [hsf]; rfl)
  · intro formats maxH th cp inc vs as0 hs hok
    obtain ⟨_, hvs, hhls⟩ := process_youtube_formats_inv formats maxH th cp inc vs as0 hs hok
    constructor
    · intro s hsm
      obtain ⟨f, _, hsf⟩ := hvs s hsm
      rcases hsf with hsf | hsf <;> exact flag_iff_of_not s (by rw [hsf]; rfl)
    · intro s hsm
      obtain ⟨f, _, hsf⟩ := hhls s hsm
      rw [hsf]
      rfl

/-- Claim C1, witness: the amended theorem applied to a concrete run of
the generic pipeline. -/
theorem claim_C1_witness :
    (cleanV (buildVideoSource DEFAULT_CODEC_PRIORITY fmt648)).hasAudio = false ↔
      (cleanV (buildVideoSource DEFAULT_CODEC_PRIORITY fmt648)).needsMerge = true :=
  claim_C1.1 [fmt648] [720] DEFAULT_CODEC_PRIORITY (mkRat 1 10)
    [cleanV (buildVideoSource DEFAULT_CODEC_PRIORITY fmt648)] [] (by decide) _ (by simp)

/-- Claim C2 (confirmed): the video Source lists of both selection
pipelines never contain two Sources built from the same height
(`VSource.hgt` records it), and every emitted Source is built from some
input format — target heights with no candidate contribute nothing, so
there is no padding. -/
theorem claim_C2 :
    (∀ (formats : List RawFormat) (th : List Int) (cp : List (String × Int)) (tol : ℚ)
        (vs : List VSource) (as0 : List ASource),
        process_video_formats formats th cp tol = .ok (vs, as0) →
        (vs.map VSource.hgt).Nodup ∧
          ∀ s ∈ vs, ∃ f ∈ formats, s = cleanV (buildVideoSource cp f)) ∧
      ∀ (formats : List RawFormat) (maxH : Int) (th : List Int) (cp : List (String × Int))
          (inc : Bool) (vs : List VSource) (as0 : List ASource) (hs : List VSource),
          process_youtube_formats formats maxH th cp inc = .ok (vs, as0, hs) →
          (vs.map VSource.hgt).Nodup ∧
            ∀ s ∈ vs, ∃ f ∈ formats, s = buildSourceYT f true ∨ s = buildSourceYT f false := by
  constructor
  · exact fun formats th cp tol vs as0 hok => process_video_formats_inv formats th cp tol vs as0 hok
  · intro formats maxH th cp inc vs as0 hs hok
    obtain ⟨h1, h2, _⟩ := process_youtube_formats_inv formats maxH th cp inc vs as0 hs hok
    exact ⟨h1, h2⟩

/-- Claim C2, witness: the dedup and no-padding conclusions at a
concrete two-format input that produces one 648p source. -/
theorem claim_C2_witness :
    (([cleanV (buildVideoSource DEFAULT_CODEC_PRIORITY fmt648)].map VSource.hgt).Nodup ∧
      ∀ s ∈ [cleanV (buildVideoSource DEFAULT_CODEC_PRIORITY fmt648)],
        ∃ f ∈ [fmt648, fmt792],
          s = cleanV (buildVideoSource DEFAULT_CODEC_PRIORITY f)) :=
  claim_C2.1 [fmt648, fmt792] [720] DEFAULT_CODEC_PRIORITY (mkRat 1 10)
    [cleanV (buildVideoSource DEFAULT_CODEC_PRIORITY fmt648)] [] (by decide)

/-- Claim C3 (confirmed): with targetHeights = [720] and tolerance 0.1
the generic pipeline accepts the 648p bucket (|648-720| = 72 ≤ 72,
inclusive boundary) and rejects the 647p bucket (73 > 72). -/
theorem claim_C3 :
    process_video_formats [fmt648] [720] DEFAULT_CODEC_PRIORITY (mkRat 1 10) =
      .ok ([cleanV (buildVideoSource DEFAULT_CODEC_PRIORITY fmt648)], []) ∧
      process_video_formats [fmt647] [720] DEFAULT_CODEC_PRIORITY (mkRat 1 10) =
        .ok ([], []) := by
  decide

/-- Claim C6, counterexample: with an MP3 candidate at 128 kbps and a
FLAC candidate at 1000 kbps (target 128), the claim predicts one Source
per present codec ([MP3, FLAC] in preference order); the code instead
returns only the single highest-bitrate "other" candidate (the FLAC
one), because only AAC and Opus are recognized groups. -/
theorem claim_C6_counterexample :
    process_audio_formats [mp3at128, flacAt1000] 128 = .ok [cleanA flacAt1000] ∧
      (cleanA flacAt1000).codec = some "FLAC" := by
  decide

/-- Claim C6 (amended): the audio selector recognizes only the AAC and
Opus groups, in that order; each non-empty group contributes its
earliest member of minimal |bitrate - target|.  MP3, Vorbis and FLAC
count as "other": only when neither AAC nor Opus is present and other
codecs exist is the single earliest highest-bitrate other candidate
returned.  Formally the code equals `audioSelectSpec` on sources whose
effective bitrate lookup is defined and which are non-empty dicts. -/
theorem claim_C6 (sources : List ASource) (target : Int)
    (hdef : ∀ s ∈ sources, (effBitrate? s).isSome)
    (hne : ∀ s ∈ sources, s.isEmptyDict = false) :
    process_audio_formats sources target = .ok (audioSelectSpec sources target) :=
  process_audio_formats_eq sources target hdef hne

/-- Claim C6, witness: the amended equation at AAC candidates 64/128/256
with target 128 (the nearest, 128, is selected). -/
theorem claim_C6_witness :
    process_audio_formats [aacAt64, aacAt128, aacAt256] 128 =
      .ok (audioSelectSpec [aacAt64, aacAt128, aacAt256] 128) :=
  claim_C6 [aacAt64, aacAt128, aacAt256] 128 (by decide) (by decide)

/-- Claim C9, counterexample: a format whose height key is bound to
Python `None` makes both selection pipelines raise a `TypeError`
(`abs(None - target)` resp. the sort key `-None`), refuting the claim
that the components never raise on malformed fields. -/
theorem claim_C9_counterexample :
    process_video_formats [fmtNullHeight] DEFAULT_TARGET_HEIGHTS DEFAULT_CODEC_PRIORITY
        (mkRat 1 10) = .error "TypeError" ∧
      process_youtube_formats [fmtNullHeight] 720 DEFAULT_TARGET_HEIGHTS DEFAULT_CODEC_PRIORITY
        true = .error "TypeError" := by
  decide

/-- Claim C9 (amended): provided no format carries a `None` height and,
for direct audio-selector calls, no source's effective bitrate lookup
yields `None`, the selection components return without raising; all
other malformed or missing fields (absent keys, empty dicts, null
codecs and urls) are absorbed by defaults, and degradation only
shortens the output lists.  Some inputs outside these provisos do
raise: the counterexample raises a `TypeError` from a `None` height in
both pipelines at the default target heights. -/
theorem claim_C9 :
    (∀ (formats : List RawFormat) (th : List Int) (cp : List (String × Int)) (tol : ℚ),
        (∀ f ∈ formats, f.height ≠ PyField.null) →
        ∃ r, process_video_formats formats th cp tol = .ok r) ∧
      (∀ (formats : List RawFormat) (maxH : Int) (th : List Int) (cp : List (String × Int))
          (inc : Bool), (∀ f ∈ formats, f.height ≠ PyField.null) →
          ∃ r, process_youtube_formats formats maxH th cp inc = .ok r) ∧
      ∀ (sources : List ASource) (target : Int),
        (∀ s ∈ sources, (effBitrate? s).isSome) →
        ∃ r, process_audio_formats sources target = .ok r :=
  ⟨fun formats th cp tol hh => process_video_formats_ok formats th cp tol hh,
    fun formats maxH th cp inc hh => process_youtube_formats_ok formats maxH th cp inc hh,
    fun sources target hdef => process_audio_formats_ok sources target hdef⟩

/-- Claim C9, witness: the no-raise conclusion at a concrete input with
a missing-height format (absent key defaults to 0; no exception). -/
theorem claim_C9_witness :
    ∃ r, process_video_formats [fmt648, fmtExtM3u8] DEFAULT_TARGET_HEIGHTS
        DEFAULT_CODEC_PRIORITY (mkRat 1 10) = .ok r :=
  claim_C9.1 [fmt648, fmtExtM3u8] DEFAULT_TARGET_HEIGHTS DEFAULT_CODEC_PRIORITY (mkRat 1 10)
    (by decide)

/-- Claim C10, counterexample: an AAC candidate whose bitrate key is
bound to Python `None` is not treated as bitrate 0 — the distance
computation `abs(None - target)` raises a `TypeError` instead of
selecting the candidate. -/
theorem claim_C10_counterexample :
    process_audio_formats [aacNullBitrate] 128 = .error "TypeError" := by
  decide

/-- Claim C7, counterexample: hev1/hvc1 profile strings are not mapped
to HEVC by `normalize_codec_name`; they fall through to the
first-dot-segment uppercase fallback. -/
theorem claim_C7_counterexample :
    normalize_codec_name (some "hev1.1.6.L93.B0") = "HEV1" ∧
      normalize_codec_name (some "hvc1.1.6.L93.B0") = "HVC1" ∧ ("HEV1" : String) ≠ "HEVC" := by
  decide

/-- Claim C7 (amended): the normalizer checks, in fixed order and
case-insensitively, avc/h264/h.264 → H.264, vp9/vp09 → VP9,
av01/av1 → AV1, and hevc/h265/h.265 → HEVC (hev1 and hvc1 are not
consulted); an empty or "none" token yields the empty string; any other
token yields its first dot-segment uppercased. -/
theorem claim_C7 :
    normalize_codec_name none = "" ∧
      normalize_codec_name (some "") = "" ∧
      normalize_codec_name (some "none") = "" ∧
      ∀ c : String, c ≠ "" → c ≠ "none" →
        (((strContains (pyLower c) "avc" || strContains (pyLower c) "h264" ||
            strContains (pyLower c) "h.264") = true) →
          normalize_codec_name (some c) = "H.264") ∧
        (((strContains (pyLower c) "avc" || strContains (pyLower c) "h264" ||
            strContains (pyLower c) "h.264") = false) →
          ((strContains (pyLower c) "vp9" || strContains (pyLower c) "vp09") = true) →
          normalize_codec_name (some c) = "VP9") ∧
        (((strContains (pyLower c) "avc" || strContains (pyLower c) "h264" ||
            strContains (pyLower c) "h.264") = false) →
          ((strContains (pyLower c) "vp9" || strContains (pyLower c) "vp09") = false) →
          ((strContains (pyLower c) "av01" || strContains (pyLower c) "av1") = true) →
          normalize_codec_name (some c) = "AV1") ∧
        (((strContains (pyLower c) "avc" || strContains (pyLower c) "h264" ||
            strContains (pyLower c) "h.264") = false) →
          ((strContains (pyLower c) "vp9" || strContains (pyLower c) "vp09") = false) →
          ((strContains (pyLower c) "av01" || strContains (pyLower c) "av1") = false) →
          ((strContains (pyLower c) "hevc" || strContains (pyLower c) "h265" ||
            strContains (pyLower c) "h.265") = true) →
          normalize_codec_name (some c) = "HEVC") ∧
        (((strContains (pyLower c) "avc" || strContains (pyLower c) "h264" ||
            strContains (pyLower c) "h.264") = false) →
          ((strContains (pyLower c) "vp9" || strContains (pyLower c) "vp09") = false) →
          ((strContains (pyLower c) "av01" || strContains (pyLower c) "av1") = false) →
          ((strContains (pyLower c) "hevc" || strContains (pyLower c) "h265" ||
            strContains (pyLower c) "h.265") = false) →
          normalize_codec_name (some c) = pyUpper ((pySplitDot c).headD "")) := by
  refine ⟨rfl, rfl, rfl, ?_⟩
  intro c hc1 hc2
  have hno : ¬(c = "" ∨ c = "none") := by simp [hc1, hc2]
  refine ⟨?_, ?_, ?_, ?_, ?_⟩
  · intro hA
    unfold normalize_codec_name
    dsimp only
    rw [if_neg hno]
    rw [if_pos hA]
  · intro hA hB
    unfold normalize_codec_name
    dsimp only
    rw [if_neg hno]
    rw [if_neg (by simp [hA]), if_pos hB]
  · intro hA hB hC
    unfold normalize_codec_name
    dsimp only
    rw [if_neg hno]
    rw [if_neg (by simp [hA]), if_neg (by simp [hB]), if_pos hC]
  · intro hA hB hC hD
    unfold normalize_codec_name
    dsimp only
    rw [if_neg hno]
    rw [if_neg (by simp [hA]), if_neg (by simp [hB]), if_neg (by simp [hC]), if_pos hD]
  · intro hA hB hC hD
    unfold normalize_codec_name
    dsimp only
    rw [if_neg hno]
    rw [if_neg (by simp [hA]), if_neg (by simp [hB]), if_neg (by simp [hC]),
      if_neg (by simp [hD])]

/-- Claim C7, witness: the HEVC rule of the amended theorem applied at
the token "hevc". -/
theorem claim_C7_witness : normalize_codec_name (some "hevc") = "HEVC" :=
  ((claim_C7.2.2.2 "hevc" (by decide) (by decide)).2.2.2.1) (by decide) (by decide) (by decide)
    (by decide)

/-- Claim C8, counterexample: `is_hls_format` classifies this format as
HLS, yet the generic pipeline does not discard it — the format appears
in the video output (the generic first pass never tests HLS
membership). -/
theorem claim_C8_counterexample :
    is_hls_format fmtHlsAv = .ok true ∧
      (process_video_formats [fmtHlsAv] [720] DEFAULT_CODEC_PRIORITY (mkRat 1 10)).toOption.map
        (fun r => (r.1.map VSource.url, r.2.length)) =
        some ([some "http://cdn/index.m3u8"], 0) := by
  decide

/-- Claim C8 (amended): a format is classified HLS exactly when its URL
contains .m3u8, /manifest/ or index.m3u8, or its protocol equals m3u8,
m3u8_native or hls — the extension is not consulted (a format with
extension m3u8 but clean URL/protocol is not HLS).  HLS-classified
formats are excluded from the progressive/DASH/audio buckets of the
progressive-priority pipeline only; the generic pipeline performs no
HLS test. -/
theorem claim_C8 :
    (∀ (fmt : RawFormat) (u : String), fmt.url.get "" = some u →
        is_hls_format fmt =
          .ok (strContains u ".m3u8" || strContains u "/manifest/" ||
            strContains u "index.m3u8" || (fmt.protocol.get "" == some "m3u8") ||
            (fmt.protocol.get "" == some "m3u8_native") ||
            (fmt.protocol.get "" == some "hls"))) ∧
      (∀ (inc : Bool) (formats : List RawFormat) (f : RawFormat),
          (f ∈ (categorizeYT inc formats).1 ∨ f ∈ (categorizeYT inc formats).2.1 ∨
            f ∈ (categorizeYT inc formats).2.2.1) →
          is_hls_format f = .ok false) ∧
      is_hls_format fmtExtM3u8 = .ok false := by
  refine ⟨?_, ?_, by decide⟩
  · intro fmt u hu
    unfold is_hls_format
    rw [hu]
    rfl
  · intro inc formats f hf
    rcases hf with hf | hf | hf
    · rcases (categorizeYT_mem inc formats ([], [], [], []) f).1 hf with h1 | h1
      · simp at h1
      · exact h1.2
    · rcases (categorizeYT_mem inc formats ([], [], [], []) f).2.1 hf with h1 | h1
      · simp at h1
      · exact h1.2
    · rcases (categorizeYT_mem inc formats ([], [], [], []) f).2.2.1 hf with h1 | h1
      · simp at h1
      · exact h1.2

/-- Claim C8, witness: the classification equation of the amended
theorem at a concrete HLS URL. -/
theorem claim_C8_witness :
    is_hls_format fmtHlsNoAudio =
      .ok (strContains "http://cdn/index.m3u8" ".m3u8" ||
        strContains "http://cdn/index.m3u8" "/manifest/" ||
        strContains "http://cdn/index.m3u8" "index.m3u8" ||
        (fmtHlsNoAudio.protocol.get "" == some "m3u8") ||
        (fmtHlsNoAudio.protocol.get "" == some "m3u8_native") ||
        (fmtHlsNoAudio.protocol.get "" == some "hls")) :=
  claim_C8.1 fmtHlsNoAudio "http://cdn/index.m3u8" (by decide)

/-- Claim C5 (confirmed): one progressive and one DASH video-only
format with equal codec at the same height h ≤ ceiling yield, in either
input order, exactly the progressive Source (with hasAudio = true)
first and no DASH Source at that height. -/
theorem claim_C5 (h maxH : Int) (th : List Int) (cp : List (String × Int)) (inc : Bool)
    (hle : h ≤ maxH) :
    (process_youtube_formats [mkProg h, mkDash h] maxH th cp inc =
        .ok ([buildSourceYT (mkProg h) true], [], []) ∧
      process_youtube_formats [mkDash h, mkProg h] maxH th cp inc =
        .ok ([buildSourceYT (mkProg h) true], [], [])) ∧
      (buildSourceYT (mkProg h) true).hasAudio = true := by
  have hprog : progLoop maxH th [(mkProg h, h)] [] [] =
      ([h], [buildSourceYT (mkProg h) true]) := by
    unfold progLoop
    dsimp only
    rw [if_neg (not_lt.mpr hle)]
    rw [if_neg (by simp)]
    rw [if_pos (Or.inr hle)]
    rfl
  have hdash : dashLoop th [(mkDash h, h)] [h] [buildSourceYT (mkProg h) true] =
      ([h], [buildSourceYT (mkProg h) true]) := by
    unfold dashLoop
    rw [if_pos (by simp)]
    rfl
  have key : ∀ formats : List RawFormat,
      categorizeYT inc formats = ([mkProg h], [mkDash h], [], []) →
      process_youtube_formats formats maxH th cp inc =
        .ok ([buildSourceYT (mkProg h) true], [], []) := by
    intro formats hcat
    show (match pairHeights (categorizeYT inc formats).1 with
      | .error e => (.error e : Except String (List VSource × List ASource × List VSource))
      | .ok progP =>
        match pairHeights (categorizeYT inc formats).2.1 with
        | .error e => .error e
        | .ok dashP =>
          match process_audio_formats
              ((categorizeYT inc formats).2.2.1.map buildAudioSource) 128 with
          | .error e => .error e
          | .ok audio_sources =>
            if inc ∧ (categorizeYT inc formats).2.2.2 ≠ [] then
              match pairHeights (categorizeYT inc formats).2.2.2 with
              | .error e => .error e
              | .ok hlsP =>
                .ok ((dashLoop th (sortBy (ytLe cp) dashP)
                    (progLoop maxH th (sortBy (ytLe cp) progP) [] []).1
                    (progLoop maxH th (sortBy (ytLe cp) progP) [] []).2).2,
                  audio_sources,
                  (hlsLoop th (sortBy hlsLe hlsP) [] []).2)
            else
              .ok ((dashLoop th (sortBy (ytLe cp) dashP)
                  (progLoop maxH th (sortBy (ytLe cp) progP) [] []).1
                  (progLoop maxH th (sortBy (ytLe cp) progP) [] []).2).2,
                audio_sources, [])) = .ok ([buildSourceYT (mkProg h) true], [], [])
    rw [hcat]
    dsimp only
    rw [show pairHeights [mkProg h] = .ok [(mkProg h, h)] from rfl]
    rw [show pairHeights [mkDash h] = .ok [(mkDash h, h)] from rfl]
    rw [show process_audio_formats (List.map buildAudioSource []) 128 =
      .ok ([] : List ASource) from rfl]
    dsimp only
    rw [if_neg (by simp)]
    rw [show sortBy (ytLe cp) [(mkProg h, h)] = [(mkProg h, h)] from rfl]
    rw [show sortBy (ytLe cp) [(mkDash h, h)] = [(mkDash h, h)] from rfl]
    rw [hprog]
    dsimp only
    rw [hdash]
  have hcat1 : categorizeYT inc [mkProg h, mkDash h] = ([mkProg h], [mkDash h], [], []) := rfl
  have hcat2 : categorizeYT inc [mkDash h, mkProg h] = ([mkProg h], [mkDash h], [], []) := rfl
  exact ⟨⟨key _ hcat1, key _ hcat2⟩, rfl⟩

/-- Claim C5, witness: the theorem at height 720 with ceiling 720 and
the default configuration. -/
theorem claim_C5_witness :
    (process_youtube_formats [mkProg 720, mkDash 720] 720 DEFAULT_TARGET_HEIGHTS
        DEFAULT_CODEC_PRIORITY true = .ok ([buildSourceYT (mkProg 720) true], [], []) ∧
      process_youtube_formats [mkDash 720, mkProg 720] 720 DEFAULT_TARGET_HEIGHTS
        DEFAULT_CODEC_PRIORITY true = .ok ([buildSourceYT (mkProg 720) true], [], [])) ∧
      (buildSourceYT (mkProg 720) true).hasAudio = true :=
  claim_C5 720 720 DEFAULT_TARGET_HEIGHTS DEFAULT_CODEC_PRIORITY true (by decide)


/-- Claim C4, counterexample: buckets 648 and 792 both lie at distance
72 from target 720 (within tolerance 0.1), yet with 648 first in the
input the 648 bucket is selected, not the larger height: the strict
`<` in the scan keeps the earlier-built bucket on ties. -/
theorem claim_C4_counterexample :
    process_video_formats [fmt648, fmt792] [720] DEFAULT_CODEC_PRIORITY (mkRat 1 10) =
      .ok ([cleanV (buildVideoSource DEFAULT_CODEC_PRIORITY fmt648)], []) ∧
      (cleanV (buildVideoSource DEFAULT_CODEC_PRIORITY fmt648)).hgt = some 648 := by
  decide

/-- Claim C4 (amended): when two buckets at distinct heights are both
within tolerance of a target and at equal absolute distance from it,
the bucket built first from the input list is selected — ties are
broken by dict insertion order, not by larger height. -/
theorem claim_C4 (u1 u2 : String) (h1 h2 t : Int) (tol : ℚ) (cp : List (String × Int))
    (hu1 : u1 ≠ "") (hu2 : u2 ≠ "") (hne : h1 ≠ h2) (h10 : h1 ≠ 0)
    (htol1 : tolOk h1 t tol = true) (htol2 : tolOk h2 t tol = true)
    (htie : (h1 - t).natAbs = (h2 - t).natAbs) :
    process_video_formats [mkVid u1 h1, mkVid u2 h2] [t] cp tol =
      .ok ([cleanV (buildVideoSource cp (mkVid u1 h1))], []) := by
  have hstep : ∀ acc : List RawFormat × List RawFormat, ∀ u h, u ≠ "" →
      catGStep acc (mkVid u h) = (acc.1 ++ [mkVid u h], acc.2) := by
    intro acc u h hu
    unfold catGStep
    rw [if_pos (show truthyS (mkVid u h).url.get? = true from decide_eq_true hu)]
    dsimp only
    rw [if_neg (fun hc => (by decide : ¬("avc1.4d401f" = "none")) (Option.some.inj hc.1))]
    rw [if_pos (show (mkVid u h).vcodec.get "none" ≠ some "none" from
      fun hc => (by decide : ¬("avc1.4d401f" = "none")) (Option.some.inj hc))]
  have hcat : categorizeGeneric [mkVid u1 h1, mkVid u2 h2] =
      ([mkVid u1 h1, mkVid u2 h2], []) := by
    unfold categorizeGeneric
    dsimp only [List.foldl]
    rw [hstep _ _ _ hu1, hstep _ _ _ hu2]
    rfl
  have hbk : buildBuckets cp [mkVid u1 h1, mkVid u2 h2] =
      [(some h1, [buildVideoSource cp (mkVid u1 h1)]),
       (some h2, [buildVideoSource cp (mkVid u2 h2)])] := by
    show addBucket [(some h1, [buildVideoSource cp (mkVid u1 h1)])] (some h2)
        (buildVideoSource cp (mkVid u2 h2)) = _
    unfold addBucket
    rw [if_neg (fun hc => hne (Option.some.inj hc))]
    rfl
  have hfb : findBest tol t [some h1, some h2] = .ok (some h1) := by
    show (if tolOk h1 t tol = true then findBestAux tol t (some h1) [some h2]
          else findBestAux tol t none [some h2]) = .ok (some h1)
    rw [if_pos htol1]
    show (if tolOk h2 t tol = true then
            (if (h2 - t).natAbs < (h1 - t).natAbs then findBestAux tol t (some h2) []
             else findBestAux tol t (some h1) [])
          else findBestAux tol t (some h1) []) = .ok (some h1)
    rw [if_pos htol2]
    rw [if_neg (by rw [htie]; exact lt_irrefl _)]
    rfl
  have hlk : bhLookup [(some h1, [buildVideoSource cp (mkVid u1 h1)]),
      (some h2, [buildVideoSource cp (mkVid u2 h2)])] (some h1) =
      some [buildVideoSource cp (mkVid u1 h1)] := by
    unfold bhLookup
    rw [List.find?_cons_of_pos _ (by simp)]
  have hsel : selectLoop tol [t]
      [(some h1, [buildVideoSource cp (mkVid u1 h1)]),
       (some h2, [buildVideoSource cp (mkVid u2 h2)])] [] =
      .ok [cleanV (buildVideoSource cp (mkVid u1 h1))] := by
    unfold selectLoop
    rw [show List.map Prod.fst
        [(some h1, [buildVideoSource cp (mkVid u1 h1)]),
         (some h2, [buildVideoSource cp (mkVid u2 h2)])] = [some h1, some h2] from rfl]
    rw [show findBest tol t [some h1, some h2] = .ok (some h1) from hfb]
    dsimp only
    rw [hlk]
    rw [if_pos ⟨h10, by simp⟩]
    rfl
  unfold process_video_formats
  rw [hcat]
  dsimp only
  rw [hbk, hsel]
  rfl

/-- Claim C4, witness: heights 648 and 792 for target 720 at tolerance
0.1, with the 648 format first. -/
theorem claim_C4_witness :
    process_video_formats [mkVid "http://cdn/a" 648, mkVid "http://cdn/b" 792] [720]
        DEFAULT_CODEC_PRIORITY (mkRat 1 10) =
      .ok ([cleanV (buildVideoSource DEFAULT_CODEC_PRIORITY (mkVid "http://cdn/a" 648))], []) :=
  claim_C4 "http://cdn/a" "http://cdn/b" 648 792 720 (mkRat 1 10) DEFAULT_CODEC_PRIORITY
    (by decide) (by decide) (by decide) (by decide) (by decide) (by decide) (by decide)


/-- Claim C10 (amended): only an ABSENT bitrate key is treated as
bitrate 0 in the distance computation (a key bound to Python `None`
raises instead — see the counterexample); consequently an AAC candidate
with absent bitrate reaches the output only when no AAC candidate's
bitrate lies strictly closer to the target than distance |target|. -/
theorem claim_C10 (sources : List ASource) (target : Int) (res : List ASource) (s0 : ASource)
    (hint : ∀ s ∈ sources, s.bitrateInternal = PyField.absent)
    (hdef : ∀ s ∈ sources, (effBitrate? s).isSome)
    (hne : ∀ s ∈ sources, s.isEmptyDict = false)
    (hok : process_audio_formats sources target = .ok res)
    (hmem : s0 ∈ sources) (hcodec : s0.codec = some "AAC")
    (habs : s0.bitrate = PyField.absent) (hres : s0 ∈ res) :
    effBitrate? s0 = some 0 ∧
      ∀ b ∈ sources, b.codec = some "AAC" →
        ∀ v, effBitrate? b = some v → ¬(|v - target| < |target|) := by
  have h0 : effBitrate? s0 = some 0 := by
    unfold effBitrate?
    rw [hint s0 hmem, habs]
  refine ⟨h0, ?_⟩
  have heq := process_audio_formats_eq sources target hdef hne
  rw [heq] at hok
  have hsel : audioSelectSpec sources target = res := Except.ok.inj hok
  rw [← hsel] at hres
  unfold audioSelectSpec at hres
  rw [if_neg (by
    cases sources with
    | nil => exact absurd hmem (List.not_mem_nil s0)
    | cons a l => simp)] at hres
  dsimp only at hres
  split at hres
  · exfalso
    generalize hfm : firstMaxBy (fun s => (effBitrate? s).getD 0)
        (List.filter (fun s => !(s.codec == some "AAC" || s.codec == some "Opus")) sources) =
      fm at hres
    cases fm with
    | none => simp at hres
    | some b =>
      have hs0b : s0 = cleanA b := by simpa using hres
      have hbmem : b ∈ List.filter
          (fun s => !(s.codec == some "AAC" || s.codec == some "Opus")) sources :=
        firstMinBy_mem _ _ b hfm
      have hbpred := (List.mem_filter.mp hbmem).2
      have hcodb : b.codec = some "AAC" := by
        rw [hs0b] at hcodec
        rw [← cleanA_codec b]
        exact hcodec
      rw [hcodb] at hbpred
      simp at hbpred
  · rw [List.map_append] at hres
    rcases List.mem_append.mp hres with hL | hR
    · generalize hfa : firstMinBy (fun s => |(effBitrate? s).getD 0 - target|)
          (List.filter (fun s => s.codec == some "AAC") sources) = fa at hL
      cases fa with
      | none => simp at hL
      | some a =>
        have hamem : a ∈ List.filter (fun s => s.codec == some "AAC") sources :=
          firstMinBy_mem _ _ a hfa
        have hasrc : a ∈ sources := (List.mem_filter.mp hamem).1
        have hs0a : s0 = a := by
          have := cleanA_eq_self a (hint a hasrc)
          simpa [this] using hL
        subst hs0a
        have hmin := firstMinBy_min _ _ s0 hfa
        intro b hb hbC v hv
        have hbF : b ∈ List.filter (fun s => s.codec == some "AAC") sources :=
          List.mem_filter.mpr ⟨hb, by rw [hbC]; decide⟩
        have hle := hmin b hbF
        rw [h0, hv] at hle
        simp only [Option.getD] at hle
        rw [zero_sub, abs_neg] at hle
        exact not_lt.mpr hle
    · generalize hfo : firstMinBy (fun s => |(effBitrate? s).getD 0 - target|)
          (List.filter (fun s => s.codec == some "Opus") sources) = fo at hR
      cases fo with
      | none => simp at hR
      | some b =>
        have hbmem : b ∈ List.filter (fun s => s.codec == some "Opus") sources :=
          firstMinBy_mem _ _ b hfo
        have hbpred := (List.mem_filter.mp hbmem).2
        have hs0b : s0 = cleanA b := by simpa using hR
        have hcodb : b.codec = some "AAC" := by
          rw [hs0b] at hcodec
          rw [← cleanA_codec b]
          exact hcodec
        rw [hcodb] at hbpred
        simp at hbpred

/-- Claim C10, witness: a lone AAC source with no bitrate key at target
128 is selected with effective bitrate 0. -/
theorem claim_C10_witness :
    effBitrate? aacNoBitrate = some 0 ∧
      ∀ b ∈ [aacNoBitrate], b.codec = some "AAC" →
        ∀ v, effBitrate? b = some v → ¬(|v - 128| < |(128 : Int)|) :=
  claim_C10 [aacNoBitrate] 128 [aacNoBitrate] aacNoBitrate (by decide) (by decide) (by decide)
    (by decide) (by decide) (by decide) (by decide) (by decide)
